import Mathlib

/-!
# katenary: the per-service generation pipeline, the port registry and the
template conditionalizer

A shallow embedding of `generator/main.go`, `helm/container.go`,
`helm/configMap.go` and the Deployment pass of `main.go`.

Go strings are Lean `String`s; the functions of Go's `strings` and `strconv`
packages that the program calls are defined on the list of characters.
Go maps are association lists read with `List.lookup`.  Package level
variables (`servicesMap`, `serviceWaiters`, `Values`, `VolumeValues`) are
fields of an explicit state that every function takes and returns.
-/

set_option linter.dupNamespace false

namespace Katenary

/-! ## Go library functions used by the program -/

/-- Go `strings.HasPrefix`. -/
def HasPrefix (s p : String) : Bool := p.data.isPrefixOf s.data

/-- Characters: does `sub` occur in `s`. -/
def containsChars (sub : List Char) : List Char → Bool
  | [] => sub.isEmpty
  | c :: cs => sub.isPrefixOf (c :: cs) || containsChars sub cs

/-- Go `strings.Contains`. -/
def Contains (s sub : String) : Bool := containsChars sub.data s.data

/-- Characters: replace the first `n` leftmost non-overlapping occurrences of
a non-empty `old` by `new`; `none` replaces all of them.  The first argument
counts the characters of a matched occurrence still to be dropped. -/
def replaceChars (old new : List Char) : Nat → Option Nat → List Char → List Char
  | _, _, [] => []
  | k + 1, n, _ :: cs => replaceChars old new k n cs
  | 0, some 0, c :: cs => c :: replaceChars old new 0 (some 0) cs
  | 0, n, c :: cs =>
    if old.isPrefixOf (c :: cs) then
      new ++ replaceChars old new (old.length - 1) (n.map Nat.pred) cs
    else c :: replaceChars old new 0 n cs

/-- Characters: Go's replacement of an empty `old`, which puts `new` before
every character and at the end, at most `n` times. -/
def replaceEmpty (new : List Char) : Option Nat → List Char → List Char
  | some 0, cs => cs
  | _, [] => new
  | n, c :: cs => new ++ c :: replaceEmpty new (n.map Nat.pred) cs

/-- Go `strings.Replace(s, old, new, n)` for `n ≥ 0`. -/
def Replace (s old new : String) (n : Nat) : String :=
  if old.data.isEmpty then ⟨replaceEmpty new.data (some n) s.data⟩
  else ⟨replaceChars old.data new.data 0 (some n) s.data⟩

/-- Go `strings.ReplaceAll`. -/
def ReplaceAll (s old new : String) : String :=
  if old.data.isEmpty then ⟨replaceEmpty new.data none s.data⟩
  else ⟨replaceChars old.data new.data 0 none s.data⟩

/-- Characters: cut at the first `n` leftmost non-overlapping occurrences of a
non-empty `sep`; `none` cuts at all of them. -/
def splitChars (sep : List Char) : Nat → Option Nat → List Char → List (List Char)
  | _, _, [] => [[]]
  | k + 1, n, _ :: cs => splitChars sep k n cs
  | 0, some 0, cs => [cs]
  | 0, n, c :: cs =>
    if sep.isPrefixOf (c :: cs) then
      [] :: splitChars sep (sep.length - 1) (n.map Nat.pred) cs
    else
      match splitChars sep 0 n cs with
      | [] => [[c]]
      | f :: fs => (c :: f) :: fs

/-- Go `strings.Split(s, sep)`; an empty `sep` explodes `s` into characters. -/
def Split (s sep : String) : List String :=
  if sep.data.isEmpty then s.data.map (fun c => ⟨[c]⟩)
  else (splitChars sep.data 0 none s.data).map String.mk

/-- Go `strings.SplitN(s, sep, n)` for `n > 0` and a non-empty `sep`: at most
`n` fields, the last one the unsplit remainder. -/
def SplitN (s sep : String) (n : Nat) : List String :=
  (splitChars sep.data 0 (some (n - 1)) s.data).map String.mk

/-- Go `unicode.IsSpace`. -/
def isSpace (c : Char) : Bool :=
  c.val = 0x09 || c.val = 0x0A || c.val = 0x0B || c.val = 0x0C || c.val = 0x0D ||
  c.val = 0x20 || c.val = 0x85 || c.val = 0xA0 || c.val = 0x1680 ||
  (0x2000 ≤ c.val && c.val ≤ 0x200A) || c.val = 0x2028 || c.val = 0x2029 ||
  c.val = 0x202F || c.val = 0x205F || c.val = 0x3000

/-- Go `strings.TrimSpace`. -/
def TrimSpace (s : String) : String :=
  ⟨((s.data.dropWhile isSpace).reverse.dropWhile isSpace).reverse⟩

/-- Value of a decimal digit. -/
def digitVal (c : Char) : Option Nat :=
  if 48 ≤ c.toNat ∧ c.toNat ≤ 57 then some (c.toNat - 48) else none

/-- Value of a string of decimal digits, most significant first, on top of
the value `acc` read so far; `none` when a character is not a digit. -/
def parseDigits : Nat → List Char → Option Nat
  | acc, [] => some acc
  | acc, c :: cs =>
    match digitVal c with
    | none => none
    | some d => parseDigits (10 * acc + d) cs

/-- Unsigned part of Go `strconv.Atoi`: at least one digit, digits only. -/
def parseUnsigned : List Char → Option Nat
  | [] => none
  | cs => parseDigits 0 cs

/-- Go `strconv.Atoi` on a 64-bit platform: the integer and whether an error
is returned.  A syntax error gives 0, a range error the nearest bound. -/
def Atoi (s : String) : Int × Bool :=
  match s.data with
  | '-' :: cs =>
    match parseUnsigned cs with
    | none => (0, true)
    | some n => if n ≤ 2 ^ 63 then (-(n : Int), false) else (-(2 ^ 63 : Int), true)
  | '+' :: cs =>
    match parseUnsigned cs with
    | none => (0, true)
    | some n => if n < 2 ^ 63 then ((n : Int), false) else ((2 ^ 63 - 1 : Int), true)
  | cs =>
    match parseUnsigned cs with
    | none => (0, true)
    | some n => if n < 2 ^ 63 then ((n : Int), false) else ((2 ^ 63 - 1 : Int), true)

/-- Go `strconv.Itoa`. -/
def Itoa (n : Int) : String :=
  match n with
  | Int.ofNat m => Nat.repr m
  | Int.negSucc m => "-" ++ Nat.repr (m + 1)

/-- Go map read `v, ok := m[k]`. -/
def mapGet {κ β : Type} [DecidableEq κ] (m : List (κ × β)) (k : κ) : Option β := m.lookup k

/-- Go map write `m[k] = v`. -/
def mapSet {κ β : Type} [DecidableEq κ] (m : List (κ × β)) (k : κ) (v : β) : List (κ × β) :=
  match m with
  | [] => [(k, v)]
  | (k0, v0) :: rest => if k0 = k then (k, v) :: rest else (k0, v0) :: mapSet rest k v

/-! ## The port registry (`servicesMap`, `serviceWaiters`, `locker`)

A channel made by `waitPort` has one receiver, the `<-waitPort(dp)` of
`prepareInitContainers`, which receives once.  A send on such a channel hands
its value over when nothing was sent before; a second send on the still open
channel finds no receiver and blocks for ever, with `locker` held; a send on a
closed channel panics. -/

/-- State of one `chan int` made by `waitPort`: the values of the send
statements run on it, oldest first, and whether `close` was run on it. -/
structure Chan where
  sends : List Int
  closed : Bool
deriving DecidableEq, Repr

/-- The goroutines the registry code starts. -/
inductive Goroutine where
  /-- `go func()` of `detected`: sends the port to the waiters of the name. -/
  | detectedDelivery (name : String) (port : Int)
  /-- `go func()` of `waitPort`: sends the known port on the new channel. -/
  | waitPortDelivery (name : String) (c : Nat)
  /-- `go func()` of `parseService` for a service without ports: at every
  tick sends -1 to the waiters of the name and closes them. -/
  | noPortBroadcast (name : String)
deriving DecidableEq, Repr

/-- Whether the process still runs: `deadlocked` when a goroutine is blocked
for ever in a send while holding `locker`, `panicked` after a send on a closed
channel or a second `close`. -/
inductive Status where
  | running
  | deadlocked
  | panicked
deriving DecidableEq, Repr

/-- The package variables `servicesMap` and `serviceWaiters`, the channels
made so far (a channel is its index), the goroutines started and not yet
finished, and the status of the process. -/
structure Registry where
  servicesMap : List (String × Int)
  serviceWaiters : List (String × List Nat)
  chans : List Chan
  goroutines : List Goroutine
  status : Status
deriving DecidableEq, Repr

/-- The registry at the start of a run. -/
def Registry.init : Registry := ⟨[], [], [], [], .running⟩

/-- The statement `c <- v`. -/
def send (st : Registry) (c : Nat) (v : Int) : Registry :=
  match st.chans.get? c with
  | none => st
  | some ch =>
    { st with
      chans := st.chans.set c { ch with sends := ch.sends ++ [v] }
      status :=
        if ch.closed then .panicked
        else if ch.sends.isEmpty then st.status
        else .deadlocked }

/-- The statement `close(c)`. -/
def closeChan (st : Registry) (c : Nat) : Registry :=
  match st.chans.get? c with
  | none => st
  | some ch =>
    { st with
      chans := st.chans.set c { ch with closed := true }
      status := if ch.closed then .panicked else st.status }

/-- The loop `for _, c := range cx { c <- port }` of `detected`. -/
def sendAll (port : Int) : Registry → List Nat → Registry
  | st, [] => st
  | st, c :: cs =>
    if (send st c port).status = .running then sendAll port (send st c port) cs
    else send st c port

/-- The loop `for _, c := range serviceWaiters[name] { c <- -1; close(c) }`
of the broadcast goroutine. -/
def broadcastAll : Registry → List Nat → Registry
  | st, [] => st
  | st, c :: cs =>
    if (send st c (-1)).status = .running then
      if (closeChan (send st c (-1)) c).status = .running then
        broadcastAll (closeChan (send st c (-1)) c) cs
      else closeChan (send st c (-1)) c
    else send st c (-1)

/-- Body of `detected` up to the `go` statement. -/
def detected (st : Registry) (name : String) (port : Int) : Registry :=
  match mapGet st.servicesMap name with
  | some _ => st
  | none =>
    { st with
      servicesMap := mapSet st.servicesMap name port
      goroutines := st.goroutines ++ [.detectedDelivery name port] }

/-- Go `getPort`: the port and the error, if any. -/
def getPort (st : Registry) (name : String) : Int × Option String :=
  match mapGet st.servicesMap name with
  | some v => (v, none)
  | none => (-1, some "Not found")

/-- Body of `waitPort` up to the `go` statement: the new state and the
channel returned. -/
def waitPort (st : Registry) (name : String) : Registry × Nat :=
  ({ st with
     chans := st.chans ++ [⟨[], false⟩]
     serviceWaiters :=
       mapSet st.serviceWaiters name
         ((mapGet st.serviceWaiters name).getD [] ++ [st.chans.length])
     goroutines := st.goroutines ++ [.waitPortDelivery name st.chans.length] },
   st.chans.length)

/-- One run of the critical section of a goroutine. -/
def runBody (st : Registry) : Goroutine → Registry
  | .detectedDelivery name port =>
    match mapGet st.serviceWaiters name with
    | some cx => sendAll port st cx
    | none => st
  | .waitPortDelivery name c =>
    match mapGet st.servicesMap name with
    | some v => send st c v
    | none => st
  | .noPortBroadcast name => broadcastAll st ((mapGet st.serviceWaiters name).getD [])

/-- The steps of an execution of the registry. -/
inductive Action where
  /-- a call of `waitPort(name)` -/
  | waitPort (name : String)
  /-- a call of `detected(name, port)` -/
  | detected (name : String) (port : Int)
  /-- `parseService` starts the broadcast goroutine of a service without ports -/
  | startBroadcast (name : String)
  /-- the scheduler lets the goroutine at index `i` take `locker` and run its
  critical section: to the end for the two deliveries, for one tick for the
  broadcast loop, which stays -/
  | run (i : Nat)
deriving DecidableEq, Repr

/-- One step.  Every step takes `locker`, so none is possible once the process
has panicked or a goroutine is blocked holding the lock. -/
def step (st : Registry) (a : Action) : Registry :=
  if st.status ≠ .running then st
  else
    match a with
    | .waitPort name => (waitPort st name).1
    | .detected name port => detected st name port
    | .startBroadcast name => { st with goroutines := st.goroutines ++ [.noPortBroadcast name] }
    | .run i =>
      match st.goroutines.get? i with
      | none => st
      | some (.noPortBroadcast name) => runBody st (.noPortBroadcast name)
      | some g => runBody { st with goroutines := st.goroutines.eraseIdx i } g

/-- An execution: the steps taken in order from a state. -/
def exec (st : Registry) (as : List Action) : Registry := as.foldl step st

/-! ## Package `helm`: the resource objects

`helm/container.go` and `helm/configMap.go` are translated as they are.  The
other declarations of the package (`RELEASE_NAME`, `K`, the `LABEL_` constants,
`Appname`, `NewBase`, `NewDeployment`, `NewService`, `NewServicePort`,
`NewIngress`, `SetIngressClass`, `NewPVC`, `NewProbe`) lie outside these
sources: the constants are fields of the parameter `Helm`, and an object made
by one of the constructors keeps the arguments it was made from and the fields
the generator assigns. -/

/-- Go `Metadata` as far as the program touches it. -/
structure Metadata where
  Name : String
  Labels : List (String × String)
deriving DecidableEq, Repr

/-- Go `K8sBase`. -/
structure K8sBase where
  ApiVersion : String
  Kind : String
  Metadata : Metadata
deriving DecidableEq, Repr

/-- The constants of package `helm` and the object `NewBase()` returns. -/
structure Helm where
  RELEASE_NAME : String
  K : String
  LABEL_INGRESS : String
  LABEL_VOL_CM : String
  LABEL_ENV_SECRET : String
  LABEL_ENV_SERVICE : String
  LABEL_HEALTHCHECK : String
  Appname : String
  NewBase : K8sBase
deriving Repr

/-- Go `ContainerPort`. -/
structure ContainerPort where
  Name : String
  ContainerPort : Int
deriving DecidableEq, Repr

/-- Go `Value`: the value is the `*string` of the environment mapping, `none`
for a nil pointer. -/
structure Value where
  Name : String
  Value : Option String
deriving DecidableEq, Repr

/-- Go `Probe`: the arguments of `NewProbe` and the three handlers. -/
structure Probe where
  period : Int
  initialDelay : Int
  success : Int
  failure : Int
  HttpGet : Option (String × Int)
  TCP : Option Int
  Exec : Option (List String)
deriving DecidableEq, Repr

/-- An element of `Container.EnvFrom`: `{section: {"name": name}}`. -/
structure EnvFromRef where
  sect : String
  name : String
deriving DecidableEq, Repr

/-- An element of `Container.VolumeMounts`: `{"name": .., "mountPath": ..}`. -/
structure MountPoint where
  name : String
  mountPath : String
deriving DecidableEq, Repr

/-- Go `Container`. -/
structure Container where
  Name : String
  Image : String
  Ports : List ContainerPort
  Env : List Value
  EnvFrom : List EnvFromRef
  Command : List String
  VolumeMounts : List MountPoint
  LivenessProbe : Option Probe
deriving DecidableEq, Repr

/-- The loop `for _, name := range toServices` of `NewContainer` on one
variable `n` with value pointer `v`; `none` is the nil pointer dereference of
`*v` on a variable without value. -/
def bindToServices (h : Helm) (n : String) : List String → Option String → Option (Option String)
  | [], v => some v
  | name :: rest, v =>
    if name = n then
      match v with
      | none => none
      | some x => bindToServices h n rest (some (h.RELEASE_NAME ++ "-" ++ x))
    else bindToServices h n rest v

/-- The loop `for n, v := range environment` of `NewContainer`, over the
entries in the order the runtime visits them. -/
def bindEnvironment (h : Helm) (toServices : List String) :
    List (String × Option String) → Option (List Value)
  | [] => some []
  | (n, v) :: rest =>
    match bindToServices h n toServices v with
    | none => none
    | some v2 =>
      match bindEnvironment h toServices rest with
      | none => none
      | some vs => some (⟨n, v2⟩ :: vs)

/-- Go `helm.NewContainer`; `environment` lists the mapping in the order
`range` visits it; `none` when the run panics on a nil value. -/
def NewContainer (h : Helm) (name image : String) (environment : List (String × Option String))
    (labels : List (String × String)) : Option Container :=
  let toServices :=
    match mapGet labels h.LABEL_ENV_SERVICE with
    | some bound => Split bound ","
    | none => []
  match bindEnvironment h toServices environment with
  | none => none
  | some env =>
    some { Name := name, Image := image, Ports := [], Env := env, EnvFrom := [],
           Command := [], VolumeMounts := [], LivenessProbe := none }

/-- Go `ConfigMap`; `Secret` has the same fields. -/
structure ConfigMap where
  K8sBase : K8sBase
  Data : List (String × String)
deriving DecidableEq, Repr

/-- Go `helm.NewConfigMap`. -/
def NewConfigMap (h : Helm) (name : String) : ConfigMap :=
  { K8sBase :=
      { ApiVersion := "v1", Kind := "ConfigMap",
        Metadata :=
          { Name := h.RELEASE_NAME ++ "-" ++ name,
            Labels := mapSet h.NewBase.Metadata.Labels (h.K ++ "/component") name } },
    Data := [] }

/-- Go `helm.NewSecret`. -/
def NewSecret (h : Helm) (name : String) : ConfigMap :=
  { K8sBase :=
      { ApiVersion := "v1", Kind := "Secret",
        Metadata :=
          { Name := h.RELEASE_NAME ++ "-" ++ name,
            Labels := mapSet h.NewBase.Metadata.Labels (h.K ++ "/component") name } },
    Data := [] }

/-- A value of the `values.yaml` tree under `Values[name]`: a string (the
image, a secret's literal), the ingress settings, or the persistence map. -/
structure VolumeValue where
  enabled : Bool
  capacity : String
deriving DecidableEq, Repr

/-- The `interface{}` stored under `Values[name][key]`. -/
inductive Val where
  | str (s : String)
  | ingress (cls host : String) (enabled : Bool)
  | persistence (vols : List (String × VolumeValue))
deriving DecidableEq, Repr

/-- Go `helm.Values`. -/
abbrev Values := List (String × List (String × Val))

/-- The loop over the lines of `(*ConfigMap).AddEnvFile`: the data after the
lines read, and whether a line without `=` stopped it. -/
def addEnvLinesCM : List String → List (String × String) → List (String × String) × Bool
  | [], data => (data, false)
  | l :: rest, data =>
    if (TrimSpace l).length = 0 then addEnvLinesCM rest data
    else
      match SplitN (TrimSpace l) "=" 2 with
      | k :: v :: _ => addEnvLinesCM rest (mapSet data k v)
      | _ => (data, true)

/-- Go `(*ConfigMap).AddEnvFile`: `content` is what `ioutil.ReadFile(file)`
returned, its error text on the left.  Gives the store and the error. -/
def ConfigMap.AddEnvFile (c : ConfigMap) (file : String) (content : Except String String) :
    ConfigMap × Option String :=
  match content with
  | .error err => (c, some err)
  | .ok text =>
    match addEnvLinesCM (Split text "\n") c.Data with
    | (data, true) => ({ c with Data := data }, some ("The environment file " ++ file ++ " is not valid"))
    | (data, false) => ({ c with Data := data }, none)

/-- The loop over the lines of `(*Secret).AddEnvFile`: the data and the
values after the lines read, and whether a line without `=` stopped it. -/
def addEnvLinesSecret (name : String) :
    List String → List (String × String) → Values → List (String × String) × Values × Bool
  | [], data, values => (data, values, false)
  | l :: rest, data, values =>
    if (TrimSpace l).length = 0 then addEnvLinesSecret name rest data values
    else
      match SplitN (TrimSpace l) "=" 2 with
      | k :: v :: _ =>
        addEnvLinesSecret name rest
          (mapSet data k ("\x7b\x7b .Values." ++ name ++ "." ++ k ++ " | b64enc | quote \x7d\x7d"))
          (mapSet values name (mapSet ((mapGet values name).getD []) k (.str v)))
      | _ => (data, values, true)

/-- Go `(*Secret).AddEnvFile`: gives the secret, the values (the map behind
`*values` is written in place) and the error. -/
def Secret.AddEnvFile (s : ConfigMap) (file name : String) (content : Except String String)
    (values : Values) : ConfigMap × Values × Option String :=
  match content with
  | .error err => (s, values, some err)
  | .ok text =>
    match addEnvLinesSecret name (Split text "\n") s.Data values with
    | (data, vals, true) =>
      ({ s with Data := data }, vals, some ("The environment file " ++ file ++ " is not valid"))
    | (data, vals, false) => ({ s with Data := data }, vals, none)

/-- A volume of the pod: `{"name": .., "configMap": {"name": ..}}` or
`{"name": .., "persistentVolumeClaim": {"claimName": ..}}`. -/
inductive VolumeSource where
  | configMap (name : String)
  | persistentVolumeClaim (claimName : String)
deriving DecidableEq, Repr

/-- An element of the volume list `prepareVolumes` returns. -/
structure Volume where
  name : String
  source : VolumeSource
deriving DecidableEq, Repr

/-- The object `helm.NewPVC(name, volname)` returns, by its arguments. -/
structure Storage where
  service : String
  volname : String
deriving DecidableEq, Repr

/-- The object `helm.NewServicePort(port, target)` returns. -/
structure ServicePort where
  port : Int
  target : Int
deriving DecidableEq, Repr

/-- The object `helm.NewService(name)` returns, with the fields of its spec
that the generator assigns. -/
structure K8sService where
  name : String
  /-- `Spec.Type` when the generator assigns it, `none` when it is left as
  `NewService` made it -/
  type : Option String
  Ports : List ServicePort
  Selector : List (String × String)
deriving DecidableEq, Repr

/-- The object `helm.NewIngress(name)` returns, with the single rule
`createIngress` assigns and the argument of `SetIngressClass`. -/
structure Ingress where
  name : String
  Host : String
  Path : String
  PathType : String
  ServiceName : String
  ServicePortNumber : Int
  ingressClassOf : String
deriving DecidableEq, Repr

/-- The object `helm.NewDeployment(name)` returns, with the fields of its spec
that `parseService` assigns. -/
structure Deployment where
  name : String
  Containers : List Container
  Volumes : List Volume
  Selector : List (String × String)
  TemplateLabels : List (String × String)
  InitContainers : List Container
deriving DecidableEq, Repr

/-- What `parseService` sends on its channel. -/
inductive Resource where
  | configMap (c : ConfigMap)
  | secret (s : ConfigMap)
  | storage (p : Storage)
  | service (ks : K8sService)
  | ingress (i : Ingress)
  | deployment (d : Deployment)
deriving DecidableEq, Repr

/-! ## Package `compose`: the service descriptor

The type `compose.Service` is declared outside these sources; its fields are
the ones the generator reads. -/

/-- Go `compose.HealthCheck`. -/
structure HealthCheck where
  Test : List String
  Interval : String
  StartPeriod : String
  Retries : Int
deriving DecidableEq, Repr

/-- Go `compose.Service`. -/
structure Service where
  Image : String
  Ports : List String
  Environment : List (String × Option String)
  Labels : List (String × String)
  DependsOn : List String
  Volumes : List String
  Expose : List Int
  EnvFiles : List String
  HealthCheck : Option HealthCheck
deriving DecidableEq, Repr

/-! ## The world around one `parseService` goroutine -/

/-- The file system and the library parsers the generator calls. -/
structure World where
  /-- `ioutil.ReadFile`: the content, or the text of the error -/
  ReadFile : String → Except String String
  /-- `os.Stat`: `none` on error, else whether the path is a directory -/
  Stat : String → Option Bool
  /-- `filepath.Glob` -/
  Glob : String → List String
  /-- `time.ParseDuration` followed by `int(d.Seconds())`, or the error text -/
  DurationSeconds : String → Except String Int
  /-- `url.Parse`: the error text, or `u.Path` and `u.Port()` -/
  urlParse : String → Except String (String × String)
  /-- `shlex.Split`, its error dropped as the caller does -/
  shlexSplit : String → List String

/-- What the runtime and the other goroutines decide while this one runs. -/
structure Sched where
  /-- order in which `range environment` visits the entries of the mapping -/
  rangeOrder : List (String × Option String) → List (String × Option String)
  /-- what the other goroutines did to the registry before the lookup of the
  dependency at index `i` -/
  interfere : Nat → Registry → Registry
  /-- value received from the channel `waitPort` made for the dependency at
  index `i`; `none` when nothing is ever sent on it -/
  received : Nat → Option Int

deriving instance DecidableEq for Except

/-- How a run stops before its end. -/
inductive Halt where
  /-- `log.Fatal`, `log.Fatalf` (code 1) and `os.Exit`, with the text logged -/
  | exit (code : Nat) (msg : String)
  /-- a runtime panic -/
  | panicked (msg : String)
  /-- blocked for ever in a receive on a channel -/
  | blocked
deriving DecidableEq, Repr

/-- The package variables and the values sent on `ret` so far (`none` is the
`nil` end marker).  In the functions below `locker.Lock()` is taken to return:
the sections it guards are steps of their own, and `ret` takes every value
sent. -/
structure St where
  Values : Values
  VolumeValues : List (String × List (String × VolumeValue))
  reg : Registry
  out : List (Option Resource)
deriving DecidableEq, Repr

/-- The statement `ret <- x`. -/
def St.emit (st : St) (r : Option Resource) : St := { st with out := st.out ++ [r] }

/-- The loop over `s.EnvFiles` of `prepareEnvFromFiles`. -/
def prepareEnvFromFilesLoop (h : Helm) (w : World) (name : String) (secretsFiles : List String) :
    List String → Container → St → St × Except Halt Container
  | [], container, st => (st, .ok container)
  | envfile :: rest, container, st =>
    let f := ReplaceAll (ReplaceAll (ReplaceAll (ReplaceAll envfile "_" "-") ".env" "") "." "") "/" ""
    let cf := f ++ "-" ++ name
    let isSecret := secretsFiles.any (fun x => x = envfile)
    if !isSecret then
      match (NewConfigMap h cf).AddEnvFile envfile (w.ReadFile envfile) with
      | (_, some err) => (st, .error (.exit 2 err))
      | (store, none) =>
        prepareEnvFromFilesLoop h w name secretsFiles rest
          { container with
            EnvFrom := container.EnvFrom ++ [⟨"configMapRef", store.K8sBase.Metadata.Name⟩] }
          (st.emit (some (.configMap store)))
    else
      match Secret.AddEnvFile (NewSecret h cf) envfile name (w.ReadFile envfile) st.Values with
      | (_, vals, some err) => ({ st with Values := vals }, .error (.exit 2 err))
      | (store, vals, none) =>
        prepareEnvFromFilesLoop h w name secretsFiles rest
          { container with
            EnvFrom := container.EnvFrom ++ [⟨"secretRef", store.K8sBase.Metadata.Name⟩] }
          ({ st with Values := vals }.emit (some (.secret store)))

/-- Go `prepareEnvFromFiles`. -/
def prepareEnvFromFiles (h : Helm) (w : World) (name : String) (s : Service)
    (container : Container) (st : St) : St × Except Halt Container :=
  let secretsFiles :=
    match mapGet s.Labels h.LABEL_ENV_SECRET with
    | some v => Split v ","
    | none => []
  prepareEnvFromFilesLoop h w name secretsFiles s.EnvFiles container st

/-- Go `prepareProbes`. -/
def prepareProbes (h : Helm) (w : World) (s : Service) (container : Container) :
    Except Halt Container :=
  match s.HealthCheck with
  | none => .ok container
  | some hc =>
    match w.DurationSeconds (if hc.Interval = "" then "10s" else hc.Interval) with
    | .error err => .error (.exit 1 err)
    | .ok interval =>
      match w.DurationSeconds (if hc.StartPeriod = "" then "0s" else hc.StartPeriod) with
      | .error err => .error (.exit 1 err)
      | .ok initialDelaySeconds =>
        let probe : Probe := ⟨interval, initialDelaySeconds, 1, hc.Retries, none, none, none⟩
        let healthCheckLabel := (mapGet s.Labels h.LABEL_HEALTHCHECK).getD ""
        if healthCheckLabel ≠ "" then
          let u := w.urlParse healthCheckLabel
          let path := match u with
            | .ok (p, _) => p
            | .error _ => "/"
          let port := match u with
            | .ok (_, p) => (Atoi p).1
            | .error _ => 80
          if HasPrefix healthCheckLabel "http://" then
            .ok { container with LivenessProbe := some { probe with HttpGet := some (path, port) } }
          else if HasPrefix healthCheckLabel "tcp://" then
            match u with
            | .error err => .error (.exit 1 err)
            | .ok _ => .ok { container with LivenessProbe := some { probe with TCP := some port } }
          else
            .ok { container with
                  LivenessProbe := some { probe with Exec := some (w.shlexSplit healthCheckLabel) } }
        else
          match hc.Test with
          | [] => .error (.panicked "index out of range [0] with length 0")
          | t :: ts =>
            if t = "CMD" then
              .ok { container with LivenessProbe := some { probe with Exec := some ts } }
            else .ok { container with LivenessProbe := some probe }

/-- The container port of a mapping of `s.Ports` as `generateContainerPorts`
and `generateServicesAndIngresses` read it: the second field of the split at
`:` when there is one, else the first, through `Atoi` with the error dropped. -/
def containerPortOf (p : String) : Int :=
  match Split p ":" with
  | _ :: c :: _ => (Atoi c).1
  | [a] => (Atoi a).1
  | [] => 0

/-- The loop over `s.Ports` of `generateContainerPorts`; `existsMap` is the
map `exists` from the port numbers seen to the service name. -/
def containerPortsLoop (name : String) :
    List String → List (Int × String) → List ContainerPort →
      List (Int × String) × List ContainerPort
  | [], existsMap, ports => (existsMap, ports)
  | port :: rest, existsMap, ports =>
    containerPortsLoop name rest (mapSet existsMap (containerPortOf port) name)
      (ports ++
        [⟨if existsMap.any (fun e => name = e.2) then
            name ++ "-" ++ Itoa (containerPortOf port)
          else name,
          containerPortOf port⟩])

/-- The loop over `s.Expose` of `generateContainerPorts`. -/
def exposePortsLoop (name : String) (existsMap : List (Int × String)) :
    List Int → List ContainerPort → List ContainerPort
  | [], ports => ports
  | port :: rest, ports =>
    match mapGet existsMap port with
    | some _ => exposePortsLoop name existsMap rest ports
    | none => exposePortsLoop name existsMap rest (ports ++ [⟨name, port⟩])

/-- Go `generateContainerPorts`. -/
def generateContainerPorts (s : Service) (name : String) (container : Container) : Container :=
  { container with
    Ports :=
      exposePortsLoop name (containerPortsLoop name s.Ports [] container.Ports).1 s.Expose
        (containerPortsLoop name s.Ports [] container.Ports).2 }

/-- Go `buildSelector`. -/
def buildSelector (h : Helm) (name : String) : List (String × String) :=
  [("katenary.io/component", name), ("katenary.io/release", h.RELEASE_NAME)]

/-- Second result of Go `filepath.Split`: what follows the final slash. -/
def fileOf (path : String) : String :=
  ⟨(path.data.reverse.takeWhile (fun c => c ≠ '/')).reverse⟩

/-- The loop over the files found of `buildCMFromPath`. -/
def buildCMFiles (w : World) : List String → List (String × String) → List (String × String)
  | [], files => files
  | f :: rest, files =>
    match w.Stat f with
    | none => buildCMFiles w rest files
    | some true => buildCMFiles w rest files
    | some false =>
      buildCMFiles w rest
        (mapSet files (fileOf f)
          (match w.ReadFile f with
           | .ok c => c
           | .error _ => ""))

/-- Go `buildCMFromPath`; `none` is the nil pointer it returns when `os.Stat`
fails. -/
def buildCMFromPath (h : Helm) (w : World) (path : String) : Option ConfigMap :=
  match w.Stat path with
  | none => none
  | some isDir =>
    some { NewConfigMap h "" with
           Data := if isDir then buildCMFiles w (w.Glob (path ++ "/*")) [] else [] }

/-- The assignment `cm.K8sBase.Metadata.Name = n`. -/
def ConfigMap.setName (cm : ConfigMap) (n : String) : ConfigMap :=
  { cm with K8sBase := { cm.K8sBase with Metadata := { cm.K8sBase.Metadata with Name := n } } }

/-- One turn of the loop over `s.Volumes` of `prepareVolumes`, for the mount
`volume`: the state, and the volumes and mount points after it. -/
def prepareVolumesTurn (h : Helm) (w : World) (name : String) (configMapsVolumes : List String)
    (volume : String) (volumes : List Volume) (mountPoints : List MountPoint) (st : St) :
    St × Except Halt (List Volume × List MountPoint) :=
  match Split volume ":" with
  | volname :: volepath :: _ =>
    if !(configMapsVolumes.any (fun cmVol => volname = TrimSpace cmVol)) &&
        (HasPrefix volname "." || HasPrefix volname "/") then
      (st, .ok (volumes, mountPoints))
    else if configMapsVolumes.any (fun cmVol => volname = TrimSpace cmVol) then
      match buildCMFromPath h w volname with
      | none => (st, .error (.panicked "invalid memory address or nil pointer dereference"))
      | some cm =>
        (st.emit (some (.configMap
          (cm.setName (h.RELEASE_NAME ++ "-" ++
            ReplaceAll (Replace volname "./" "" 1) "." "-" ++ "-" ++ name)))),
         .ok
          (volumes ++
            [⟨ReplaceAll (Replace volname "./" "" 1) "." "-",
              .configMap (h.RELEASE_NAME ++ "-" ++
                ReplaceAll (Replace volname "./" "" 1) "." "-" ++ "-" ++ name)⟩],
           mountPoints ++ [⟨ReplaceAll (Replace volname "./" "" 1) "." "-", volepath⟩]))
    else
      ({ st with
         VolumeValues :=
           mapSet st.VolumeValues name
             (mapSet ((mapGet st.VolumeValues name).getD []) (ReplaceAll volname "-" "")
               ⟨false, "1Gi"⟩) }.emit
        (some (.storage ⟨name, ReplaceAll volname "-" ""⟩)),
       .ok
        (volumes ++
          [⟨ReplaceAll volname "-" "",
            .persistentVolumeClaim (h.RELEASE_NAME ++ "-" ++ ReplaceAll volname "-" "")⟩],
         mountPoints ++ [⟨ReplaceAll volname "-" "", volepath⟩]))
  | _ => (st, .error (.panicked "index out of range [1] with length 1"))

/-- The loop over `s.Volumes` of `prepareVolumes`. -/
def prepareVolumesLoop (h : Helm) (w : World) (name : String) (configMapsVolumes : List String) :
    List String → List Volume → List MountPoint → St →
      St × Except Halt (List Volume × List MountPoint)
  | [], volumes, mountPoints, st => (st, .ok (volumes, mountPoints))
  | volume :: rest, volumes, mountPoints, st =>
    match prepareVolumesTurn h w name configMapsVolumes volume volumes mountPoints st with
    | (st2, .error e) => (st2, .error e)
    | (st2, .ok (volumes2, mountPoints2)) =>
      prepareVolumesLoop h w name configMapsVolumes rest volumes2 mountPoints2 st2

/-- The list `configMapsVolumes` of `prepareVolumes`: the fields of the
volume-to-configmap label. -/
def configMapsVolumes (h : Helm) (s : Service) : List String :=
  match mapGet s.Labels h.LABEL_VOL_CM with
  | some v => Split v ","
  | none => []

/-- Go `prepareVolumes`: the state, and the volumes returned together with
the container whose `VolumeMounts` are set. -/
def prepareVolumes (h : Helm) (w : World) (name : String) (s : Service) (container : Container)
    (st : St) : St × Except Halt (List Volume × Container) :=
  match prepareVolumesLoop h w name (configMapsVolumes h s) s.Volumes [] [] st with
  | (st2, .error e) => (st2, .error e)
  | (st2, .ok (volumes, mountPoints)) =>
    (st2, .ok (volumes, { container with VolumeMounts := mountPoints }))

/-- Go `dependScript`. -/
def dependScript (h : Helm) : String :=
  "\nOK=0\necho \"Checking __service__ port\"\nwhile [ $OK != 1 ]; do\n    echo -n \".\"\n    nc -z "
    ++ h.RELEASE_NAME ++
    "-__service__ __port__ 2>&1 >/dev/null && OK=1 || sleep 1\ndone\necho\necho \"Done\"\n"

/-- Lines 430 to 436 of `prepareInitContainers` for the dependency at index
`i`: `getPort(dp)` and, when it fails, `<-waitPort(dp)`.  Gives the registry
afterwards and `foundPort`, `none` when the goroutine blocks for ever. -/
def findPort (sch : Sched) (i : Nat) (reg : Registry) (dp : String) : Registry × Option Int :=
  match getPort (sch.interfere i reg) dp with
  | (defaultPort, none) => (sch.interfere i reg, some defaultPort)
  | (_, some _) => ((waitPort (sch.interfere i reg) dp).1, sch.received i)

/-- The text `log.Fatalf` prints in `prepareInitContainers`. -/
def neverDiscovered (name dp : String) : String :=
  "ERROR, the " ++ name ++ " service is waiting for " ++ dp ++ " port number, " ++
  "but it is never discovered. You must declare at least one port in " ++
  "the \"ports\" section of the service in the docker-compose file"

/-- The loop over `s.DependsOn` of `prepareInitContainers`, from index `i`. -/
def prepareInitContainersLoop (h : Helm) (sch : Sched) (name : String)
    (labels : List (String × String)) :
    Nat → List String → List Container → Registry → Registry × Except Halt (List Container)
  | _, [], initContainers, reg => (reg, .ok initContainers)
  | i, dp :: rest, initContainers, reg =>
    match NewContainer h ("check-" ++ dp) "busybox" [] labels with
    | none => (reg, .error (.panicked "invalid memory address or nil pointer dereference"))
    | some c =>
      match findPort sch i reg dp with
      | (reg2, none) => (reg2, .error .blocked)
      | (reg2, some foundPort) =>
        if foundPort = -1 then (reg2, .error (.exit 1 (neverDiscovered name dp)))
        else
          prepareInitContainersLoop h sch name labels (i + 1) rest
            (initContainers ++
              [{ c with
                 Command :=
                   ["sh", "-c",
                    ReplaceAll (ReplaceAll (TrimSpace (dependScript h)) "__service__" dp)
                      "__port__" (Itoa foundPort)] }])
            reg2

/-- Go `prepareInitContainers`. -/
def prepareInitContainers (h : Helm) (sch : Sched) (name : String) (s : Service)
    (reg : Registry) : Registry × Except Halt (List Container) :=
  prepareInitContainersLoop h sch name s.Labels 0 s.DependsOn [] reg

/-- The loop over `s.Ports` of `generateServicesAndIngresses`, from index `i`:
the service ports, and the registry after the call of `detected` at index 0. -/
def servicePortsLoop (name : String) :
    Nat → List String → List ServicePort → Registry → List ServicePort × Registry
  | _, [], ports, reg => (ports, reg)
  | i, p :: rest, ports, reg =>
    servicePortsLoop name (i + 1) rest (ports ++ [⟨containerPortOf p, containerPortOf p⟩])
      (if i = 0 then detected reg name (containerPortOf p) else reg)

/-- Go `createIngress`: the values after `Values[name]["ingress"] = ..`, and
the ingress; `none` when `Values[name]` is a nil map. -/
def createIngress (h : Helm) (name : String) (port : Int) (values : Values) :
    Option (Values × Ingress) :=
  match mapGet values name with
  | none => none
  | some m =>
    some (mapSet values name
            (mapSet m "ingress" (.ingress "nginx" (name ++ "." ++ h.Appname ++ ".tld") false)),
          { name := name, Host := "\x7b\x7b .Values." ++ name ++ ".ingress.host \x7d\x7d", Path := "/",
            PathType := "Prefix", ServiceName := h.RELEASE_NAME ++ "-" ++ name,
            ServicePortNumber := port, ingressClassOf := name })

/-- The `NodePort` service of `generateServicesAndIngresses`, when
`s.Expose` is not empty. -/
def externalService (h : Helm) (name : String) (s : Service) : List Resource :=
  if s.Expose.length > 0 then
    [.service
      { name := name ++ "-external", type := some "NodePort",
        Ports := s.Expose.map (fun p => ⟨p, p⟩), Selector := buildSelector h name }]
  else []

/-- Go `generateServicesAndIngresses`. -/
def generateServicesAndIngresses (h : Helm) (name : String) (s : Service) (st : St) :
    St × Except Halt (List Resource) :=
  match servicePortsLoop name 0 s.Ports [] st.reg with
  | (ports, reg) =>
    match mapGet s.Labels h.LABEL_INGRESS with
    | some v =>
      if (Atoi v).2 then
        ({ st with reg := reg },
         .error (.exit 1 ("The given port \"" ++ v ++ "\" as ingress port in \"" ++ name ++
           "\" service is not an integer\n")))
      else
        match createIngress h name (Atoi v).1 st.Values with
        | none => ({ st with reg := reg }, .error (.panicked "assignment to entry in nil map"))
        | some (values, ing) =>
          ({ st with reg := reg, Values := values },
           .ok ([.service ⟨name, none, ports, buildSelector h name⟩, .ingress ing] ++
                externalService h name s))
    | none =>
      ({ st with reg := reg },
       .ok ([.service ⟨name, none, ports, buildSelector h name⟩] ++ externalService h name s))

/-- The end of `parseService`, from the test on `s.Ports` and `s.Expose`
(line 100) on, with the container, the volumes and the init containers made
before. -/
def parseServiceEnd (h : Helm) (name : String) (s : Service) (container : Container)
    (volumes : List Volume) (initContainers : List Container) (st : St) :
    St × Except Halt Unit :=
  match (if s.Ports.length > 0 ∨ s.Expose.length > 0 then generateServicesAndIngresses h name s st
         else (st, .ok [])) with
  | (st2, .error e) => (st2, .error e)
  | (st2, .ok services) =>
    let st3 : St := { st2 with out := st2.out ++ services.map some }
    let st4 : St :=
      if s.Ports.length = 0 then
        { st3 with reg := { st3.reg with goroutines := st3.reg.goroutines ++ [.noPortBroadcast name] } }
      else st3
    let o : Deployment :=
      { name := name, Containers := [container], Volumes := volumes,
        Selector := buildSelector h name, TemplateLabels := buildSelector h name,
        InitContainers := initContainers }
    match mapGet st4.VolumeValues name with
    | some (v :: vs) =>
      match mapGet st4.Values name with
      | none => (st4, .error (.panicked "assignment to entry in nil map"))
      | some m =>
        ((({ st4 with
             Values := mapSet st4.Values name (mapSet m "persistence" (.persistence (v :: vs))) }.emit
          (some (.deployment o))).emit none), .ok ())
    | _ => (((st4.emit (some (.deployment o))).emit none), .ok ())

/-- Go `parseService`: the state at the end, or where the run stopped, with
everything sent on `ret` in `out`. -/
def parseService (h : Helm) (w : World) (sch : Sched) (name : String) (s : Service) (st : St) :
    St × Except Halt Unit :=
  match NewContainer h name s.Image (sch.rangeOrder s.Environment) s.Labels with
  | none => (st, .error (.panicked "invalid memory address or nil pointer dereference"))
  | some c0 =>
    match prepareEnvFromFiles h w name s { c0 with Image := "\x7b\x7b .Values." ++ name ++ ".image \x7d\x7d" }
        { st with Values := mapSet st.Values name [("image", .str s.Image)] } with
    | (st1, .error e) => (st1, .error e)
    | (st1, .ok c1) =>
      match prepareProbes h w s c1 with
      | .error e => (st1, .error e)
      | .ok c2 =>
        match prepareVolumes h w name s (generateContainerPorts s name c2) st1 with
        | (st2, .error e) => (st2, .error e)
        | (st2, .ok (volumes, c3)) =>
          match prepareInitContainers h sch name s st2.reg with
          | (reg, .error e) => ({ st2 with reg := reg }, .error e)
          | (reg, .ok initContainers) =>
            parseServiceEnd h name s c3 volumes initContainers { st2 with reg := reg }

/-! ## `main.go`: the Deployment pass of the template conditionalizer -/

/-- The loop over the lines of the encoded Deployment, `case *helm.Deployment`
of `main`: for each line the text passed to `fp.WriteString`; `dataname` is
the value of the last line seen that contains `name:` (such a line has a colon,
so the index 1 of its split is in range). -/
def deploymentLines (component : String) : String → List String → List String
  | _, [] => []
  | dataname, line :: rest =>
    if Contains line "name:" then
      (line ++ "\n") ::
        deploymentLines component (TrimSpace ((Split line ":").getD 1 "")) rest
    else if Contains line "persistentVolumeClaim" then
      ("          \x7b\x7b- if  .Values." ++ component ++ ".persistence." ++ dataname ++
          ".enabled \x7d\x7d\n" ++ line ++ "\n") :: deploymentLines component dataname rest
    else if Contains line "claimName" then
      (line ++ "\n          \x7b\x7b else \x7d\x7d" ++ "\n          emptyDir: \x7b\x7d" ++ "\n          \x7b\x7b- end \x7d\x7d"
          ++ "\n") :: deploymentLines component dataname rest
    else (line ++ "\n") :: deploymentLines component dataname rest

/-- The Deployment pass on the encoded document `content` of a deployment
with match labels `matchLabels`: what is written to the file. -/
def deploymentPass (h : Helm) (matchLabels : List (String × String)) (content : String) :
    List String :=
  deploymentLines ((mapGet matchLabels (h.K ++ "/component")).getD "") ""
    (Split content "\n")

/-! ## Concrete surroundings for the examples -/

/-- The constants of package `helm` with the values the tests show
(`katenary.io/ingress`, `{{ .Release.Name }}-database`). -/
def katenaryHelm : Helm :=
  { RELEASE_NAME := "\x7b\x7b .Release.Name \x7d\x7d", K := "katenary.io",
    LABEL_INGRESS := "katenary.io/ingress", LABEL_VOL_CM := "katenary.io/configmap-volumes",
    LABEL_ENV_SECRET := "katenary.io/secret-envfiles",
    LABEL_ENV_SERVICE := "katenary.io/env-to-service",
    LABEL_HEALTHCHECK := "katenary.io/healthcheck", Appname := "testapp",
    NewBase := ⟨"", "", ⟨"", []⟩⟩ }

/-- A world without files, whose parsers accept nothing. -/
def emptyWorld : World :=
  { ReadFile := fun f => .error ("open " ++ f ++ ": no such file or directory"),
    Stat := fun _ => none, Glob := fun _ => [],
    DurationSeconds := fun d => .error ("time: invalid duration " ++ d),
    urlParse := fun u => .error ("parse " ++ u), shlexSplit := fun _ => [] }

/-- A schedule in which no other goroutine touches the registry and nothing
is ever sent on a channel of this goroutine. -/
def quietSched : Sched :=
  { rangeOrder := fun e => e, interfere := fun _ reg => reg, received := fun _ => none }

/-- The state at the start of a run. -/
def St.init : St := ⟨[], [], Registry.init, []⟩

/-- A service with an image and nothing else. -/
def Service.ofImage (image : String) : Service :=
  { Image := image, Ports := [], Environment := [], Labels := [], DependsOn := [],
    Volumes := [], Expose := [], EnvFiles := [], HealthCheck := none }

/-! ## Notions the statements use -/

/-- The port each lookup of `prepareInitContainers` finds, from index `i` on:
`findPort` for every declared dependency in turn, whatever the loop does with
the result.  The entry of a dependency is what it resolves to when the loop
gets as far as that dependency. -/
def foundPorts (sch : Sched) : Nat → Registry → List String → List (Option Int)
  | _, _, [] => []
  | i, reg, dp :: rest =>
    (findPort sch i reg dp).2 :: foundPorts sch (i + 1) (findPort sch i reg dp).1 rest

/-- The init container one turn of the loop of `prepareInitContainers` appends
for the dependency `dp` found at port `foundPort`. -/
def initContainerOf (h : Helm) (dp : String) (foundPort : Int) : Container :=
  { Name := "check-" ++ dp, Image := "busybox", Ports := [], Env := [], EnvFrom := [],
    Command :=
      ["sh", "-c",
       ReplaceAll (ReplaceAll (TrimSpace (dependScript h)) "__service__" dp) "__port__"
         (Itoa foundPort)],
    VolumeMounts := [], LivenessProbe := none }

/-- The wait script for the host `RELEASE_NAME-dp` and the port `port`. -/
def pollScript (h : Helm) (dp port : String) : String :=
  "OK=0\necho \"Checking " ++ dp ++
  " port\"\nwhile [ $OK != 1 ]; do\n    echo -n \".\"\n    nc -z " ++ h.RELEASE_NAME ++ "-" ++ dp
  ++ " " ++ port ++ " 2>&1 >/dev/null && OK=1 || sleep 1\ndone\necho\necho \"Done\""

/-- A service `php` that depends on the services `deps`. -/
def dependent (deps : List String) : Service :=
  { Service.ofImage "php:7.2-apache" with DependsOn := deps }

/-- A registry in which `name` was discovered at `port`. -/
def Registry.discovered (name : String) (port : Int) : Registry :=
  { Registry.init with servicesMap := [(name, port)] }

/-- The network services among the values sent on `ret`, in order. -/
def emittedServices (out : List (Option Resource)) : List K8sService :=
  out.filterMap (fun r =>
    match r with
    | some (.service ks) => some ks
    | _ => none)

/-- The ingresses among the values sent on `ret`, in order. -/
def emittedIngresses (out : List (Option Resource)) : List Ingress :=
  out.filterMap (fun r =>
    match r with
    | some (.ingress i) => some i
    | _ => none)

/-- A value sent on `ret` that is a config map, a secret or a storage claim. -/
def isStore (r : Option Resource) : Bool :=
  match r with
  | some (.configMap _) => true
  | some (.secret _) => true
  | some (.storage _) => true
  | _ => false

/-- The primary network service of `name`: one port per declared mapping. -/
def primaryService (h : Helm) (name : String) (s : Service) : K8sService :=
  { name := name, type := none,
    Ports := s.Ports.map (fun p => ⟨containerPortOf p, containerPortOf p⟩),
    Selector := buildSelector h name }

/-- The `NodePort` service of `name`: one port per exposed port. -/
def nodePortService (h : Helm) (name : String) (s : Service) : K8sService :=
  { name := name ++ "-external", type := some "NodePort",
    Ports := s.Expose.map (fun p => ⟨p, p⟩), Selector := buildSelector h name }

/-- The ingress of `name` for the port `port`. -/
def ingressOf (h : Helm) (name : String) (port : Int) : Ingress :=
  { name := name, Host := "\x7b\x7b .Values." ++ name ++ ".ingress.host \x7d\x7d", Path := "/",
    PathType := "Prefix", ServiceName := h.RELEASE_NAME ++ "-" ++ name,
    ServicePortNumber := port, ingressClassOf := name }

/-- The service `database` of the tests with a declared and an exposed port. -/
def databaseService : Service :=
  { Service.ofImage "mysql:5.7" with
    Ports := ["3306"], Expose := [33060], Volumes := ["data:/var/lib/mysql"] }

/-- The service `web` of the tests: port `80:80` and the ingress label. -/
def webService : Service :=
  { Service.ofImage "nginx" with Ports := ["80:80"], Labels := [("katenary.io/ingress", "80")] }

/-- The entry `VolumeValues[name][volname]`, when there is one. -/
def volumeValue (st : St) (name volname : String) : Option VolumeValue :=
  (mapGet st.VolumeValues name).bind (fun m => mapGet m volname)

/-- The service `novol` of the tests, with the unmapped volume `/tmp/data`. -/
def novolService : Service :=
  { Service.ofImage "nginx" with Volumes := ["/tmp/data"] }

/-- A container with nothing set. -/
def bareContainer : Container :=
  { Name := "", Image := "", Ports := [], Env := [], EnvFrom := [], Command := [],
    VolumeMounts := [], LivenessProbe := none }

/-- The `if` line the Deployment pass writes before a `persistentVolumeClaim`
line, for the toggle of the volume `dataname` of `component`. -/
def toggleLine (component dataname : String) : String :=
  "          \x7b\x7b- if  .Values." ++ component ++ ".persistence." ++ dataname ++ ".enabled \x7d\x7d"

/-- The three lines the Deployment pass writes after a `claimName` line. -/
def elseLines : String :=
  "\n          \x7b\x7b else \x7d\x7d" ++ "\n          emptyDir: \x7b\x7d" ++ "\n          \x7b\x7b- end \x7d\x7d"

/-- The text of a line before its first `=`, in the spec's words. -/
def beforeEq (l : String) : String := ⟨l.data.takeWhile (fun c => c ≠ '=')⟩

/-- The whole text of a line after its first `=`, in the spec's words. -/
def afterEq (l : String) : String := ⟨(l.data.dropWhile (fun c => c ≠ '=')).tail⟩

/-- The key and value pairs of an environment file, in the spec's words: for
each line that is not empty once trimmed, the text before the first `=` and
the whole text after it, in the order of the lines. -/
def envEntries (text : String) : List (String × String) :=
  (Split text "\n").filterMap (fun l =>
    if (TrimSpace l).length = 0 then none
    else some (beforeEq (TrimSpace l), afterEq (TrimSpace l)))

/-- The templated reference a secret stores for the key `k` of `name`. -/
def secretReference (name k : String) : String :=
  "\x7b\x7b .Values." ++ name ++ "." ++ k ++ " | b64enc | quote \x7d\x7d"

/-- A world whose one file is `secret.env`, with the line `image=other`. -/
def secretWorld : World :=
  { emptyWorld with
    ReadFile := fun f =>
      if f = "secret.env" then .ok "image=other\n"
      else .error ("open " ++ f ++ ": no such file or directory") }

/-- A service with the image `nginx` whose environment file `secret.env` is
routed to a secret. -/
def imageSecretService : Service :=
  { Service.ofImage "nginx" with
    EnvFiles := ["secret.env"], Labels := [("katenary.io/secret-envfiles", "secret.env")] }

/-- A service with the declared port `80:80` and the exposed port 443. -/
def exposeService : Service :=
  { Service.ofImage "nginx" with Ports := ["80:80"], Expose := [443] }

/-- The service `http2` of the tests, with two environment variables. -/
def envService : Service :=
  { Service.ofImage "nginx" with
    Environment :=
      [("SOME_ENV_VAR", some "some_value"), ("ANOTHER_ENV_VAR", some "another_value")] }

/-- A schedule like `quietSched` in which `range` visits a map from the other
end. -/
def reversedSched : Sched := { quietSched with rangeOrder := List.reverse }

/-- A service whose mount `./conf:/etc/conf` is listed in the
volume-to-configmap label, followed by a named volume. -/
def cmService : Service :=
  { Service.ofImage "nginx" with
    Volumes := ["./conf:/etc/conf", "data:/data"],
    Labels := [("katenary.io/configmap-volumes", "./conf")] }

/-- A world like `emptyWorld` that reads the default durations `10s` and `0s`. -/
def hcWorld : World :=
  { emptyWorld with
    DurationSeconds := fun d =>
      if d = "10s" then .ok 10
      else if d = "0s" then .ok 0
      else .error ("time: invalid duration " ++ d) }

/-- A service with a health check of test `test`, default durations and three
retries, and no label. -/
def hcService (test : List String) : Service :=
  { Service.ofImage "nginx" with HealthCheck := some ⟨test, "", "", 3⟩ }

/-- A service with the declared port `80:80` whose ingress label is not a
number. -/
def badIngressService : Service :=
  { Service.ofImage "nginx" with Ports := ["80:80"], Labels := [("katenary.io/ingress", "http")] }

/-- A value sent on `ret` that is a network service or an ingress. -/
def isNetwork (r : Option Resource) : Bool :=
  match r with
  | some (.service _) => true
  | some (.ingress _) => true
  | _ => false

/-- A value sent on `ret` that is a deployment. -/
def isWorkload (r : Option Resource) : Bool :=
  match r with
  | some (.deployment _) => true
  | _ => false

/-! ## Theorems -/

theorem mapGet_mapSet_same {κ β : Type} [DecidableEq κ] (m : List (κ × β)) (k : κ) (v : β) :
    mapGet (mapSet m k v) k = some v := by
  induction m with
  | nil => simp [mapGet, mapSet]
  | cons e rest ih =>
    obtain ⟨k0, v0⟩ := e
    by_cases h : k0 = k
    · simp [mapSet, h, mapGet]
    · have h2 : (k == k0) = false := by
        simpa using fun h3 => h h3.symm
      simp only [mapSet, h, if_false, mapGet, List.lookup, h2]
      exact ih

theorem mapGet_mapSet_other {κ β : Type} [DecidableEq κ] (m : List (κ × β)) (k k2 : κ) (v : β)
    (hne : k2 ≠ k) : mapGet (mapSet m k v) k2 = mapGet m k2 := by
  induction m with
  | nil =>
    have h2 : (k2 == k) = false := by simpa using hne
    simp [mapGet, mapSet, List.lookup, h2]
  | cons e rest ih =>
    obtain ⟨k0, v0⟩ := e
    by_cases h : k0 = k
    · subst h
      have h2 : (k2 == k0) = false := by simpa using hne
      simp [mapSet, mapGet, List.lookup, h2]
    · simp only [mapSet, h, if_false, mapGet, List.lookup]
      cases hk : (k2 == k0)
      · exact ih
      · rfl

theorem detected_of_known (st : Registry) (n : String) (p : Int)
    (h : mapGet st.servicesMap n ≠ none) : detected st n p = st := by
  unfold detected
  cases hg : mapGet st.servicesMap n with
  | none => exact absurd hg h
  | some v => rfl

theorem detected_of_unknown (st : Registry) (n : String) (p : Int)
    (h : mapGet st.servicesMap n = none) :
    detected st n p =
      { st with
        servicesMap := mapSet st.servicesMap n p
        goroutines := st.goroutines ++ [.detectedDelivery n p] } := by
  unfold detected
  rw [h]

/-- C3: `detected` is idempotent, first writer wins.  On a state where `name`
is undiscovered, `detected(name, p1)` then `detected(name, p2)` leaves
`servicesMap[name] = p1` and `getPort(name)` returns `p1` without error; and on
any state where a name is already discovered `detected` changes nothing: the
discovered map, and the whole registry, stay as they were. -/
theorem detected_first_writer_wins (st : Registry) (name : String) (p1 p2 : Int)
    (h : mapGet st.servicesMap name = none) :
    mapGet (detected (detected st name p1) name p2).servicesMap name = some p1 ∧
    getPort (detected (detected st name p1) name p2) name = (p1, none) ∧
    (∀ (st2 : Registry) (n : String) (p : Int), mapGet st2.servicesMap n ≠ none →
      (detected st2 n p).servicesMap = st2.servicesMap ∧ detected st2 n p = st2) := by
  have h1 : mapGet (detected st name p1).servicesMap name = some p1 := by
    rw [detected_of_unknown st name p1 h]
    exact mapGet_mapSet_same _ _ _
  have h2 : detected (detected st name p1) name p2 = detected st name p1 :=
    detected_of_known _ _ _ (by rw [h1]; simp)
  refine ⟨by rw [h2]; exact h1, by rw [h2]; simp [getPort, h1], ?_⟩
  intro st2 n p hn
  have h3 : detected st2 n p = st2 := detected_of_known st2 n p hn
  exact ⟨by rw [h3], h3⟩

/-- Witness of C3 on the empty registry. -/
theorem detected_first_writer_wins_witness :
    mapGet (detected (detected Registry.init "database" 3306) "database" 5432).servicesMap
      "database" = some 3306 :=
  (detected_first_writer_wins Registry.init "database" 3306 5432 (by decide)).1

/-! ### Scanning lemmas for `strings.ReplaceAll` and `strings.TrimSpace` -/

theorem replaceChars_succ (old new : List Char) (k : Nat) (n : Option Nat) (c : Char)
    (cs : List Char) :
    replaceChars old new (k + 1) n (c :: cs) = replaceChars old new k n cs := by
  rw [replaceChars]

theorem replaceChars_cons_none (old new : List Char) (c : Char) (cs : List Char) :
    replaceChars old new 0 none (c :: cs) =
      if old.isPrefixOf (c :: cs) then new ++ replaceChars old new (old.length - 1) none cs
      else c :: replaceChars old new 0 none cs := by
  rw [replaceChars]
  · rfl
  · intro h; cases h

theorem replaceChars_skip (old new : List Char) (n : Option Nat) (rest : List Char) :
    ∀ (xs : List Char) (k : Nat), xs.length = k →
      replaceChars old new k n (xs ++ rest) = replaceChars old new 0 n rest := by
  intro xs
  induction xs with
  | nil =>
    intro k hk
    simp at hk
    subst hk
    rfl
  | cons x xs ih =>
    intro k hk
    cases k with
    | zero => simp at hk
    | succ k =>
      rw [List.cons_append, replaceChars_succ]
      exact ih k (by simpa using hk)

theorem replaceChars_match (old new rest : List Char) (hne : old ≠ []) :
    replaceChars old new 0 none (old ++ rest) = new ++ replaceChars old new 0 none rest := by
  cases old with
  | nil => exact absurd rfl hne
  | cons o os =>
    have hp : (o :: os).isPrefixOf (o :: (os ++ rest)) = true := by
      rw [List.isPrefixOf_iff_prefix]
      exact ⟨rest, rfl⟩
    rw [List.cons_append, replaceChars_cons_none, if_pos hp]
    rw [show (o :: os).length - 1 = os.length by simp]
    rw [replaceChars_skip _ _ _ _ os os.length rfl]

theorem replaceChars_pass (old new rest : List Char) :
    ∀ (a : List Char), (∀ t, t ≠ [] → t <:+ a → ¬ old <+: t ++ rest) →
      replaceChars old new 0 none (a ++ rest) = a ++ replaceChars old new 0 none rest := by
  intro a
  induction a with
  | nil => intro _; rfl
  | cons x a ih =>
    intro hno
    have hp : ¬ old.isPrefixOf (x :: (a ++ rest)) = true := by
      rw [List.isPrefixOf_iff_prefix]
      exact hno (x :: a) (by simp) (List.suffix_refl _)
    rw [List.cons_append, replaceChars_cons_none, if_neg hp]
    rw [ih (fun t ht hs => hno t ht (hs.trans (List.suffix_cons _ _)))]
    rfl

/-- No occurrence starts in `a` when the first character of `old` is not in `a`. -/
theorem replaceChars_pass_head (old new rest a : List Char) (o : Char)
    (ho : old.head? = some o) (ha : o ∉ a) :
    replaceChars old new 0 none (a ++ rest) = a ++ replaceChars old new 0 none rest := by
  apply replaceChars_pass
  intro t ht hs hpre
  cases t with
  | nil => exact ht rfl
  | cons y t =>
    cases old with
    | nil => simp at ho
    | cons o2 os =>
      obtain ⟨u, hu⟩ := hpre
      have hy : o = y := by
        simp at hu ho
        rw [← ho]
        exact hu.1
      apply ha
      rw [hy]
      exact hs.subset (List.mem_cons_self _ _)

theorem replaceChars_cons_skip (old new rest : List Char) (o c : Char)
    (ho : old.head? = some o) (hc : o ≠ c) :
    replaceChars old new 0 none (c :: rest) = c :: replaceChars old new 0 none rest :=
  replaceChars_pass_head old new rest [c] o ho (by simpa using hc)

theorem replaceChars_none (old new : List Char) :
    ∀ (a : List Char), containsChars old a = false → replaceChars old new 0 none a = a := by
  intro a
  induction a with
  | nil => intro _; rfl
  | cons c cs ih =>
    intro hc
    simp only [containsChars, Bool.or_eq_false_iff] at hc
    rw [replaceChars_cons_none, if_neg (by simp [hc.1]), ih hc.2]

/-- No occurrence starts in `a` when `old` does not occur in `a` and the
character after `a` is not in `old`. -/
theorem replaceChars_pass_infix (old new a : List Char) (c : Char) (rest : List Char)
    (ha : ¬ old <:+: a) (hc : c ∉ old) :
    replaceChars old new 0 none (a ++ c :: rest) =
      a ++ replaceChars old new 0 none (c :: rest) := by
  apply replaceChars_pass
  intro t _ hs hpre
  by_cases hlen : old.length ≤ t.length
  · apply ha
    have h1 : old <+: t := List.prefix_of_prefix_length_le hpre (List.prefix_append _ _) hlen
    exact h1.isInfix.trans hs.isInfix
  · have h2 : t ++ [c] <+: old := by
      have h3 : t ++ [c] <+: t ++ c :: rest := ⟨rest, by simp⟩
      exact List.prefix_of_prefix_length_le h3 hpre (by simp; omega)
    apply hc
    exact h2.subset (by simp)

theorem dropWhile_spaces (ws : List Char) (c : Char) (rest : List Char)
    (hws : ∀ x ∈ ws, isSpace x = true) (hc : isSpace c = false) :
    (ws ++ c :: rest).dropWhile isSpace = c :: rest := by
  induction ws with
  | nil => simp [List.dropWhile, hc]
  | cons x ws ih =>
    have hx : isSpace x = true := hws x (List.mem_cons_self _ _)
    simp only [List.cons_append, List.dropWhile, hx]
    exact ih (fun y hy => hws y (List.mem_cons_of_mem _ hy))

theorem TrimSpace_core (s : String) (ws1 ws2 body : List Char) (c1 c2 : Char)
    (hs : s.data = ws1 ++ c1 :: (body ++ c2 :: ws2))
    (h1 : ∀ x ∈ ws1, isSpace x = true) (h2 : ∀ x ∈ ws2, isSpace x = true)
    (hc1 : isSpace c1 = false) (hc2 : isSpace c2 = false) :
    (TrimSpace s).data = c1 :: (body ++ [c2]) := by
  unfold TrimSpace
  show ((s.data.dropWhile isSpace).reverse.dropWhile isSpace).reverse = c1 :: (body ++ [c2])
  rw [hs, dropWhile_spaces ws1 c1 _ h1 hc1]
  have hrev : (c1 :: (body ++ c2 :: ws2)).reverse = ws2.reverse ++ c2 :: (c1 :: body).reverse := by
    simp
  rw [hrev, dropWhile_spaces ws2.reverse c2 _ (fun x hx => h2 x (List.mem_reverse.mp hx)) hc2]
  simp

set_option maxRecDepth 100000 in
theorem dependScript_trimmed (h : Helm) :
    (TrimSpace (dependScript h)).data =
      "OK=0\necho \"Checking ".data ++ ("__service__".data ++
        (" port\"\nwhile [ $OK != 1 ]; do\n    echo -n \".\"\n    nc -z ".data ++
          (h.RELEASE_NAME.data ++ ('-' :: ("__service__".data ++
            (' ' :: ("__port__".data ++
              " 2>&1 >/dev/null && OK=1 || sleep 1\ndone\necho\necho \"Done\"".data))))))) := by
  have hA : "\nOK=0\necho \"Checking __service__ port\"\nwhile [ $OK != 1 ]; do\n    echo -n \".\"\n    nc -z ".data
      = '\n' :: 'O' :: ("K=0\necho \"Checking ".data ++ ("__service__".data ++
        " port\"\nwhile [ $OK != 1 ]; do\n    echo -n \".\"\n    nc -z ".data)) := by decide
  have hB : "-__service__ __port__ 2>&1 >/dev/null && OK=1 || sleep 1\ndone\necho\necho \"Done\"\n".data
      = ('-' :: ("__service__".data ++ (' ' :: ("__port__".data ++
        " 2>&1 >/dev/null && OK=1 || sleep 1\ndone\necho\necho \"Done".data)))) ++ ['"', '\n'] := by
    decide
  have hC : " 2>&1 >/dev/null && OK=1 || sleep 1\ndone\necho\necho \"Done\"".data =
      " 2>&1 >/dev/null && OK=1 || sleep 1\ndone\necho\necho \"Done".data ++ ['"'] := by decide
  have hD : "OK=0\necho \"Checking ".data = 'O' :: "K=0\necho \"Checking ".data := by decide
  have hs : (dependScript h).data =
      "\nOK=0\necho \"Checking __service__ port\"\nwhile [ $OK != 1 ]; do\n    echo -n \".\"\n    nc -z ".data
      ++ (h.RELEASE_NAME.data ++
      "-__service__ __port__ 2>&1 >/dev/null && OK=1 || sleep 1\ndone\necho\necho \"Done\"\n".data) := by
    simp only [dependScript, String.data_append, List.append_assoc]
  rw [hA, hB] at hs
  rw [hC, hD]
  generalize "K=0\necho \"Checking ".data = X1 at hs ⊢
  generalize " port\"\nwhile [ $OK != 1 ]; do\n    echo -n \".\"\n    nc -z ".data = X2 at hs ⊢
  generalize " 2>&1 >/dev/null && OK=1 || sleep 1\ndone\necho\necho \"Done".data = X3 at hs ⊢
  generalize "__service__".data = S at hs ⊢
  generalize "__port__".data = P at hs ⊢
  rw [TrimSpace_core (dependScript h) ['\n'] ['\n']
    (X1 ++ (S ++ (X2 ++ (h.RELEASE_NAME.data ++ ('-' :: (S ++ (' ' :: (P ++ X3)))))))) 'O' '"'
    (by rw [hs]; simp) (by decide) (by decide) (by decide) (by decide)]
  simp

theorem ReplaceAll_data (s old new : String) (hne : old.data ≠ []) :
    (ReplaceAll s old new).data = replaceChars old.data new.data 0 none s.data := by
  unfold ReplaceAll
  rw [if_neg (by simpa using hne)]

set_option maxRecDepth 100000 in
theorem waitScript_polls (h : Helm) (dp port : String)
    (hR : '_' ∉ h.RELEASE_NAME.data) (hdp : ¬ "__port__".data <:+: dp.data) :
    ReplaceAll (ReplaceAll (TrimSpace (dependScript h)) "__service__" dp) "__port__" port =
      pollScript h dp port := by
  apply String.ext
  rw [ReplaceAll_data _ _ _ (by decide), ReplaceAll_data _ _ _ (by decide), dependScript_trimmed]
  have hS : "__service__".data.head? = some '_' := by decide
  have hP : "__port__".data.head? = some '_' := by decide
  have hX2 : ∀ rest : List Char,
      " port\"\nwhile [ $OK != 1 ]; do\n    echo -n \".\"\n    nc -z ".data ++ rest =
      ' ' :: ("port\"\nwhile [ $OK != 1 ]; do\n    echo -n \".\"\n    nc -z ".data ++ rest) :=
    fun _ => rfl
  have hT1 : containsChars "__service__".data (' ' :: ("__port__".data ++
      " 2>&1 >/dev/null && OK=1 || sleep 1\ndone\necho\necho \"Done\"".data)) = false := by decide
  have hT2 : containsChars "__port__".data
      " 2>&1 >/dev/null && OK=1 || sleep 1\ndone\necho\necho \"Done\"".data = false := by decide
  -- first pass: `__service__`
  rw [replaceChars_pass_head _ _ _ _ '_' hS (by decide),
    replaceChars_match _ _ _ (by decide),
    replaceChars_pass_head _ _ _ _ '_' hS (by decide),
    replaceChars_pass_head _ _ _ _ '_' hS hR,
    replaceChars_cons_skip _ _ _ '_' '-' hS (by decide),
    replaceChars_match _ _ _ (by decide),
    replaceChars_none _ dp.data _ hT1]
  -- second pass: `__port__`
  rw [replaceChars_pass_head _ _ _ _ '_' hP (by decide)]
  rw [hX2, replaceChars_pass_infix _ _ dp.data ' ' _ hdp (by decide), ← hX2]
  rw [replaceChars_pass_head _ _ _ _ '_' hP (by decide),
    replaceChars_pass_head _ _ _ _ '_' hP hR,
    replaceChars_cons_skip _ _ _ '_' '-' hP (by decide),
    replaceChars_pass_infix _ _ dp.data ' ' _ hdp (by decide),
    replaceChars_cons_skip _ _ _ '_' ' ' hP (by decide),
    replaceChars_match _ _ _ (by decide),
    replaceChars_none _ port.data _ hT2]
  simp only [pollScript, String.data_append, List.append_assoc]
  rfl

/-! ### `prepareInitContainers` -/

theorem NewContainer_nil (h : Helm) (name image : String) (labels : List (String × String)) :
    NewContainer h name image [] labels =
      some { Name := name, Image := image, Ports := [], Env := [], EnvFrom := [],
             Command := [], VolumeMounts := [], LivenessProbe := none } := by
  simp [NewContainer, bindEnvironment]

theorem prepareInitContainersLoop_cons (h : Helm) (sch : Sched) (name : String)
    (labels : List (String × String)) (i : Nat) (dp : String) (rest : List String)
    (acc : List Container) (reg : Registry) :
    prepareInitContainersLoop h sch name labels i (dp :: rest) acc reg =
      match (findPort sch i reg dp).2 with
      | none => ((findPort sch i reg dp).1, .error .blocked)
      | some foundPort =>
        if foundPort = -1 then
          ((findPort sch i reg dp).1, .error (.exit 1 (neverDiscovered name dp)))
        else
          prepareInitContainersLoop h sch name labels (i + 1) rest
            (acc ++ [initContainerOf h dp foundPort]) (findPort sch i reg dp).1 := by
  rw [prepareInitContainersLoop, NewContainer_nil]
  rcases hf : findPort sch i reg dp with ⟨reg2, _ | fp⟩
  · rfl
  · simp only [initContainerOf]

theorem prepareInitContainersLoop_ok (h : Helm) (sch : Sched) (name : String)
    (labels : List (String × String)) (deps : List String) :
    ∀ (i : Nat) (acc : List Container) (reg : Registry) (ports : List Int),
      foundPorts sch i reg deps = ports.map some → (∀ p ∈ ports, p ≠ -1) →
      (prepareInitContainersLoop h sch name labels i deps acc reg).2 =
        .ok (acc ++ List.zipWith (initContainerOf h) deps ports) := by
  induction deps with
  | nil =>
    intro i acc reg ports _ _
    simp [prepareInitContainersLoop]
  | cons dp rest ih =>
    intro i acc reg ports hres hne
    cases ports with
    | nil => simp [foundPorts] at hres
    | cons p ps =>
      simp only [foundPorts, List.map_cons, List.cons.injEq] at hres
      rw [prepareInitContainersLoop_cons, hres.1]
      have hp : p ≠ -1 := hne p (List.mem_cons_self _ _)
      simp only [hp, if_false]
      rw [ih (i + 1) _ _ ps hres.2 (fun q hq => hne q (List.mem_cons_of_mem _ hq))]
      simp

theorem prepareInitContainersLoop_exit_iff (h : Helm) (sch : Sched) (name : String)
    (labels : List (String × String)) (deps : List String) :
    ∀ (i : Nat) (acc : List Container) (reg : Registry),
      (∃ code msg, (prepareInitContainersLoop h sch name labels i deps acc reg).2 =
          .error (.exit code msg)) ↔
      ∃ k, (foundPorts sch i reg deps).get? k = some (some (-1)) ∧
        ∀ j, j < k → ∃ v, (foundPorts sch i reg deps).get? j = some (some v) := by
  induction deps with
  | nil =>
    intro i acc reg
    simp [prepareInitContainersLoop, foundPorts]
  | cons dp rest ih =>
    intro i acc reg
    rw [prepareInitContainersLoop_cons]
    cases hf : (findPort sch i reg dp).2 with
    | none =>
      constructor
      · rintro ⟨code, msg, hm⟩
        simp at hm
      · rintro ⟨k, hk, hall⟩
        cases k with
        | zero => simp [foundPorts, hf] at hk
        | succ k =>
          obtain ⟨v, hv⟩ := hall 0 (Nat.succ_pos _)
          simp [foundPorts, hf] at hv
    | some fp =>
      by_cases hfp : fp = -1
      · subst hfp
        constructor
        · intro _
          exact ⟨0, by simp [foundPorts, hf], fun j hj => absurd hj (Nat.not_lt_zero _)⟩
        · intro _
          exact ⟨1, neverDiscovered name dp, by simp⟩
      · simp only [hfp, if_false]
        rw [ih]
        constructor
        · rintro ⟨k, hk, hall⟩
          refine ⟨k + 1, by simpa [foundPorts] using hk, ?_⟩
          intro j hj
          cases j with
          | zero => exact ⟨fp, by simp [foundPorts, hf]⟩
          | succ j =>
            obtain ⟨v, hv⟩ := hall j (Nat.lt_of_succ_lt_succ hj)
            exact ⟨v, by simpa [foundPorts] using hv⟩
        · rintro ⟨k, hk, hall⟩
          cases k with
          | zero =>
            simp [foundPorts, hf] at hk
            exact absurd hk hfp
          | succ k =>
            refine ⟨k, by simpa [foundPorts] using hk, ?_⟩
            intro j hj
            obtain ⟨v, hv⟩ := hall (j + 1) (Nat.succ_lt_succ hj)
            exact ⟨v, by simpa [foundPorts] using hv⟩

theorem prepareInitContainersLoop_exit_msg (h : Helm) (sch : Sched) (name : String)
    (labels : List (String × String)) (deps : List String) :
    ∀ (i : Nat) (acc : List Container) (reg : Registry) (code : Nat) (msg : String),
      (prepareInitContainersLoop h sch name labels i deps acc reg).2 = .error (.exit code msg) →
      code = 1 ∧ ∃ k dp, deps.get? k = some dp ∧
        (foundPorts sch i reg deps).get? k = some (some (-1)) ∧
        msg = neverDiscovered name dp := by
  induction deps with
  | nil =>
    intro i acc reg code msg hm
    simp [prepareInitContainersLoop] at hm
  | cons dp rest ih =>
    intro i acc reg code msg hm
    rw [prepareInitContainersLoop_cons] at hm
    cases hf : (findPort sch i reg dp).2 with
    | none => simp [hf] at hm
    | some fp =>
      rw [hf] at hm
      by_cases hfp : fp = -1
      · subst hfp
        simp at hm
        exact ⟨hm.1.symm, 0, dp, rfl, by simp [foundPorts, hf], hm.2.symm⟩
      · simp only [hfp, if_false] at hm
        obtain ⟨hc, k, d, hd, hk, hmsg⟩ := ih _ _ _ _ _ hm
        exact ⟨hc, k + 1, d, by simpa using hd, by simpa [foundPorts] using hk, hmsg⟩

theorem neverDiscovered_names (name dp : String) :
    name.data <:+: (neverDiscovered name dp).data ∧ dp.data <:+: (neverDiscovered name dp).data := by
  constructor
  · exact ⟨"ERROR, the ".data, (" service is waiting for " ++ dp ++ " port number, " ++
      "but it is never discovered. You must declare at least one port in " ++
      "the \"ports\" section of the service in the docker-compose file").data, by
        simp [neverDiscovered, String.data_append]⟩
  · exact ⟨("ERROR, the " ++ name ++ " service is waiting for ").data, (" port number, " ++
      "but it is never discovered. You must declare at least one port in " ++
      "the \"ports\" section of the service in the docker-compose file").data, by
        simp [neverDiscovered, String.data_append]⟩

/-- C2: `prepareInitContainers` stops with a fatal error exactly when some
declared dependency resolves to -1 (its lookup is reached, every dependency
before it having resolved, and finds -1); the run then ends with code 1 and
the text logged is the one built from the dependent service and that
dependency, it contains both names, and no list of init containers is
returned. -/
theorem prepareInitContainers_fatal_iff (h : Helm) (sch : Sched) (name : String)
    (s : Service) (reg : Registry) :
    ((∃ code msg, (prepareInitContainers h sch name s reg).2 = .error (.exit code msg)) ↔
      ∃ k, (foundPorts sch 0 reg s.DependsOn).get? k = some (some (-1)) ∧
        ∀ j, j < k → ∃ v, (foundPorts sch 0 reg s.DependsOn).get? j = some (some v)) ∧
    (∀ code msg, (prepareInitContainers h sch name s reg).2 = .error (.exit code msg) →
      code = 1 ∧
      (∀ cs, (prepareInitContainers h sch name s reg).2 ≠ .ok cs) ∧
      ∃ k dp, s.DependsOn.get? k = some dp ∧
        (foundPorts sch 0 reg s.DependsOn).get? k = some (some (-1)) ∧
        msg = neverDiscovered name dp ∧
        name.data <:+: msg.data ∧ dp.data <:+: msg.data) := by
  refine ⟨prepareInitContainersLoop_exit_iff h sch name s.Labels s.DependsOn 0 [] reg, ?_⟩
  intro code msg hm
  obtain ⟨hc, k, dp, hd, hk, hmsg⟩ :=
    prepareInitContainersLoop_exit_msg h sch name s.Labels s.DependsOn 0 [] reg code msg hm
  refine ⟨hc, ?_, k, dp, hd, hk, hmsg, ?_⟩
  · intro cs hcs
    rw [hm] at hcs
    cases hcs
  · rw [hmsg]
    exact neverDiscovered_names name dp

theorem foundPorts_length (sch : Sched) (deps : List String) :
    ∀ (i : Nat) (reg : Registry), (foundPorts sch i reg deps).length = deps.length := by
  induction deps with
  | nil => intro i reg; rfl
  | cons dp rest ih => intro i reg; simp [foundPorts, ih]

/-- What `prepareInitContainers` returns when every declared dependency
resolves to a port other than -1: one init container per dependency, in
the order declared; the one for `dp` resolved to `p` is named `check-dp`, has
image `busybox` and command `sh -c script`, where `script` is the trimmed wait
script with `__service__` replaced by `dp` and then `__port__` replaced by the
decimal form of `p`.  When `dp` does not contain the text `__port__` (and
`RELEASE_NAME` has no underscore) that script is the loop polling
`nc -z RELEASE_NAME-dp p`. -/
theorem prepareInitContainers_one_per_dependency (h : Helm) (sch : Sched) (name : String)
    (s : Service) (reg : Registry) (ports : List Int)
    (hres : foundPorts sch 0 reg s.DependsOn = ports.map some)
    (hne : ∀ p ∈ ports, p ≠ -1) :
    (prepareInitContainers h sch name s reg).2 =
      .ok (List.zipWith (initContainerOf h) s.DependsOn ports) ∧
    (List.zipWith (initContainerOf h) s.DependsOn ports).length = s.DependsOn.length ∧
    (∀ dp p, (initContainerOf h dp p).Name = "check-" ++ dp ∧
      (initContainerOf h dp p).Image = "busybox" ∧
      (initContainerOf h dp p).Command =
        ["sh", "-c",
         ReplaceAll (ReplaceAll (TrimSpace (dependScript h)) "__service__" dp) "__port__"
           (Itoa p)]) ∧
    (∀ dp p, '_' ∉ h.RELEASE_NAME.data → ¬ "__port__".data <:+: dp.data →
      (initContainerOf h dp p).Command = ["sh", "-c", pollScript h dp (Itoa p)]) := by
  refine ⟨?_, ?_, fun dp p => ⟨rfl, rfl, rfl⟩, ?_⟩
  · have := prepareInitContainersLoop_ok h sch name s.Labels s.DependsOn 0 [] reg ports hres hne
    simpa [prepareInitContainers] using this
  · have hl := foundPorts_length sch s.DependsOn 0 reg
    rw [hres, List.length_map] at hl
    simp [List.length_zipWith, hl]
  · intro dp p hR hdp
    simp only [initContainerOf]
    rw [waitScript_polls h dp (Itoa p) hR hdp]

set_option maxRecDepth 100000 in
/-- The service `php` depends on `database`, discovered at port 3306. -/
theorem prepareInitContainers_one_per_dependency_witness :
    (prepareInitContainers katenaryHelm quietSched "php" (dependent ["database"])
        (Registry.discovered "database" 3306)).2 =
      .ok [initContainerOf katenaryHelm "database" 3306] ∧
    (initContainerOf katenaryHelm "database" 3306).Command =
      ["sh", "-c", pollScript katenaryHelm "database" (Itoa 3306)] :=
  ⟨(prepareInitContainers_one_per_dependency katenaryHelm quietSched "php"
      (dependent ["database"]) (Registry.discovered "database" 3306) [3306]
      (by decide) (by decide)).1,
   (prepareInitContainers_one_per_dependency katenaryHelm quietSched "php"
      (dependent ["database"]) (Registry.discovered "database" 3306) [3306]
      (by decide) (by decide)).2.2.2 "database" 3306 (by decide) (by decide)⟩

set_option maxRecDepth 100000 in
/-- C1, at the failing input: the dependency is the service named `__port__`,
discovered at port 3306.  It resolves to 3306 and one init container named
`check-__port__` with image `busybox` is returned, but its script polls the
host `{{ .Release.Name }}-3306`, not `{{ .Release.Name }}-__port__`: the second
replacement also rewrites the dependency name the first one put in. -/
theorem prepareInitContainers_placeholder_in_name :
    (prepareInitContainers katenaryHelm quietSched "php" (dependent ["__port__"])
        (Registry.discovered "__port__" 3306)).2 =
      .ok [{ Name := "check-__port__", Image := "busybox", Ports := [], Env := [], EnvFrom := [],
             Command :=
               ["sh", "-c",
                "OK=0\necho \"Checking 3306 port\"\nwhile [ $OK != 1 ]; do\n    echo -n \".\"\n    nc -z \x7b\x7b .Release.Name \x7d\x7d-3306 3306 2>&1 >/dev/null && OK=1 || sleep 1\ndone\necho\necho \"Done\""],
             VolumeMounts := [], LivenessProbe := none }] ∧
    foundPorts quietSched 0 (Registry.discovered "__port__" 3306) ["__port__"] = [some 3306] ∧
    Contains
      "OK=0\necho \"Checking 3306 port\"\nwhile [ $OK != 1 ]; do\n    echo -n \".\"\n    nc -z \x7b\x7b .Release.Name \x7d\x7d-3306 3306 2>&1 >/dev/null && OK=1 || sleep 1\ndone\necho\necho \"Done\""
      "nc -z \x7b\x7b .Release.Name \x7d\x7d-__port__ 3306" = false := by
  refine ⟨by decide, by decide, by decide⟩

/-- Witness of C2: `php` depends on `database`, which has no port, so that
the channel of `waitPort` delivers -1. -/
theorem prepareInitContainers_fatal_iff_witness :
    ∃ code msg,
      (prepareInitContainers katenaryHelm { quietSched with received := fun _ => some (-1) } "php"
        (dependent ["database"]) Registry.init).2 = .error (.exit code msg) :=
  (prepareInitContainers_fatal_iff katenaryHelm { quietSched with received := fun _ => some (-1) }
    "php" (dependent ["database"]) Registry.init).1.mpr
    ⟨0, by decide, fun j hj => absurd hj (Nat.not_lt_zero j)⟩

/-! ### `generateServicesAndIngresses` and the registry -/

theorem splitChars_cons_none (sep : List Char) (c : Char) (cs : List Char) :
    splitChars sep 0 none (c :: cs) =
      if sep.isPrefixOf (c :: cs) then [] :: splitChars sep (sep.length - 1) none cs
      else
        match splitChars sep 0 none cs with
        | [] => [[c]]
        | f :: fs => (c :: f) :: fs := by
  rw [splitChars]
  · rfl
  · intro h; cases h

theorem splitChars_single_none (c : Char) :
    ∀ (a : List Char), c ∉ a → splitChars [c] 0 none a = [a] := by
  intro a
  induction a with
  | nil => intro _; rfl
  | cons x a ih =>
    intro hc
    have hx : ¬ c = x := fun e => hc (by simp [e])
    rw [splitChars_cons_none, if_neg (by simp [List.isPrefixOf, hx]),
      ih (fun hm => hc (List.mem_cons_of_mem _ hm))]

theorem splitChars_single_cut (c : Char) (rest : List Char) :
    ∀ (a : List Char), c ∉ a →
      splitChars [c] 0 none (a ++ c :: rest) = a :: splitChars [c] 0 none rest := by
  intro a
  induction a with
  | nil =>
    intro _
    rw [List.nil_append, splitChars_cons_none, if_pos (by simp [List.isPrefixOf])]
    rfl
  | cons x a ih =>
    intro hc
    have hx : ¬ c = x := fun e => hc (by simp [e])
    rw [List.cons_append, splitChars_cons_none, if_neg (by simp [List.isPrefixOf, hx]),
      ih (fun hm => hc (List.mem_cons_of_mem _ hm))]

theorem Split_colon_two (a b : String) (ha : ':' ∉ a.data) (hb : ':' ∉ b.data) :
    Split (a ++ ":" ++ b) ":" = [a, b] := by
  unfold Split
  rw [if_neg (by decide)]
  have hd : (a ++ ":" ++ b).data = a.data ++ ':' :: b.data := by
    simp [String.data_append]
  have hs : ":".data = [':'] := rfl
  rw [hd, hs, splitChars_single_cut ':' _ _ ha, splitChars_single_none ':' _ hb]
  rfl

theorem Split_colon_one (a : String) (ha : ':' ∉ a.data) : Split a ":" = [a] := by
  unfold Split
  rw [if_neg (by decide)]
  have hs : ":".data = [':'] := rfl
  rw [hs, splitChars_single_none ':' _ ha]
  rfl

theorem servicePortsLoop_later (name : String) (ps : List String) :
    ∀ (i : Nat) (ports : List ServicePort) (reg : Registry), i ≠ 0 →
      (servicePortsLoop name i ps ports reg).2 = reg := by
  induction ps with
  | nil => intro i ports reg _; rfl
  | cons p rest ih =>
    intro i ports reg hi
    rw [servicePortsLoop, if_neg hi]
    exact ih (i + 1) _ reg (Nat.succ_ne_zero i)

theorem generateServicesAndIngresses_reg (h : Helm) (name : String) (s : Service) (st : St) :
    (generateServicesAndIngresses h name s st).1.reg =
      (servicePortsLoop name 0 s.Ports [] st.reg).2 := by
  unfold generateServicesAndIngresses
  rcases servicePortsLoop name 0 s.Ports [] st.reg with ⟨ports, reg⟩
  dsimp only
  cases mapGet s.Labels h.LABEL_INGRESS with
  | none => rfl
  | some v =>
    dsimp only
    by_cases hv : (Atoi v).2 = true
    · rw [if_pos hv]
    · rw [if_neg hv]
      cases createIngress h name (Atoi v).1 st.Values with
      | none => rfl
      | some r => rfl

/-- C4: on a service with a non-empty port list whose name is not yet in the
registry, `generateServicesAndIngresses` announces once, with the container
port of the first mapping: the registry afterwards is the one before with
`servicesMap[name]` set to that port and the one delivery goroutine of that
call of `detected` started, whatever the later mappings are, and `getPort(name)`
returns the port without error.  The container port of `h:c` is `Atoi(c)`, that
of a bare `p` is `Atoi(p)`.  On a service with an empty port list the registry
is left as it was. -/
theorem generateServicesAndIngresses_announces_first (h : Helm) (name : String) (s : Service)
    (st : St) :
    (∀ first rest, s.Ports = first :: rest → mapGet st.reg.servicesMap name = none →
      (generateServicesAndIngresses h name s st).1.reg =
        { st.reg with
          servicesMap := mapSet st.reg.servicesMap name (containerPortOf first)
          goroutines := st.reg.goroutines ++ [.detectedDelivery name (containerPortOf first)] } ∧
      getPort (generateServicesAndIngresses h name s st).1.reg name =
        (containerPortOf first, none)) ∧
    (∀ hp c : String, ':' ∉ hp.data → ':' ∉ c.data → containerPortOf (hp ++ ":" ++ c) = (Atoi c).1) ∧
    (∀ p : String, ':' ∉ p.data → containerPortOf p = (Atoi p).1) ∧
    (s.Ports = [] → (generateServicesAndIngresses h name s st).1.reg = st.reg) := by
  refine ⟨?_, ?_, ?_, ?_⟩
  · intro first rest hports hnew
    have hreg : (generateServicesAndIngresses h name s st).1.reg =
        { st.reg with
          servicesMap := mapSet st.reg.servicesMap name (containerPortOf first)
          goroutines := st.reg.goroutines ++ [.detectedDelivery name (containerPortOf first)] } := by
      rw [generateServicesAndIngresses_reg, hports, servicePortsLoop, if_pos rfl,
        servicePortsLoop_later name rest 1 _ _ (by decide), detected_of_unknown _ _ _ hnew]
    refine ⟨hreg, ?_⟩
    rw [hreg]
    simp [getPort, mapGet_mapSet_same]
  · intro hp c hhp hc
    simp [containerPortOf, Split_colon_two hp c hhp hc]
  · intro p hp
    simp [containerPortOf, Split_colon_one p hp]
  · intro hports
    rw [generateServicesAndIngresses_reg, hports]
    rfl

/-- Witness of C4: the service `web` with ports `8080:80` and `443`, on the
empty registry, is discovered at port 80. -/
theorem generateServicesAndIngresses_announces_first_witness :
    getPort (generateServicesAndIngresses katenaryHelm "web"
        { Service.ofImage "nginx" with Ports := ["8080:80", "443"] } St.init).1.reg "web" =
      (containerPortOf "8080:80", none) ∧
    containerPortOf ("8080" ++ ":" ++ "80") = (Atoi "80").1 ∧
    containerPortOf "443" = (Atoi "443").1 ∧
    (generateServicesAndIngresses katenaryHelm "http2" (Service.ofImage "nginx") St.init).1.reg =
      St.init.reg :=
  ⟨((generateServicesAndIngresses_announces_first katenaryHelm "web"
      { Service.ofImage "nginx" with Ports := ["8080:80", "443"] } St.init).1
      "8080:80" ["443"] rfl (by decide)).2,
   (generateServicesAndIngresses_announces_first katenaryHelm "web"
      { Service.ofImage "nginx" with Ports := ["8080:80", "443"] } St.init).2.1
      "8080" "80" (by decide) (by decide),
   (generateServicesAndIngresses_announces_first katenaryHelm "web"
      { Service.ofImage "nginx" with Ports := ["8080:80", "443"] } St.init).2.2.1
      "443" (by decide),
   (generateServicesAndIngresses_announces_first katenaryHelm "http2"
      (Service.ofImage "nginx") St.init).2.2.2 rfl⟩

/-! ### The waiter channels -/

/-- C5, at the failing executions.  A dependent calls `waitPort("database")`
and `detected("database", 3306)` follows before the goroutine of `waitPort`
has run: both delivery goroutines then send 3306 on the one channel, and the
second send blocks for ever with `locker` held.  And for a `database` without
ports the broadcast loop sends -1 on the waiter channel and closes it at the
first tick, and sends on the closed channel at the second tick, which
panics. -/
theorem waiter_channel_sent_twice :
    (exec Registry.init
        [.waitPort "database", .detected "database" 3306, .run 0, .run 0]).chans =
      [⟨[3306, 3306], false⟩] ∧
    (exec Registry.init
        [.waitPort "database", .detected "database" 3306, .run 0, .run 0]).status =
      .deadlocked ∧
    (exec Registry.init
        [.startBroadcast "database", .waitPort "database", .run 0]).chans = [⟨[-1], true⟩] ∧
    (exec Registry.init
        [.startBroadcast "database", .waitPort "database", .run 0, .run 0]).chans =
      [⟨[-1, -1], true⟩] ∧
    (exec Registry.init
        [.startBroadcast "database", .waitPort "database", .run 0, .run 0]).status =
      .panicked := by
  refine ⟨by decide, by decide, by decide, by decide, by decide⟩

/-! ### What `parseService` sends on `ret` -/

theorem out_after_emit {out0 out1 out2 : List (Option Resource)} (r : Option Resource)
    (hr : isStore r = true) (h1 : out1 = out0 ++ [r])
    (hX : ∃ new, out2 = out1 ++ new ∧ ∀ x ∈ new, isStore x = true) :
    ∃ new, out2 = out0 ++ new ∧ ∀ x ∈ new, isStore x = true := by
  obtain ⟨new, hnew, hall⟩ := hX
  refine ⟨r :: new, by rw [hnew, h1]; simp, ?_⟩
  intro x hx
  rcases List.mem_cons.mp hx with rfl | hx
  · exact hr
  · exact hall x hx

theorem prepareEnvFromFilesLoop_out (h : Helm) (w : World) (name : String)
    (secretsFiles : List String) (files : List String) :
    ∀ (c : Container) (st : St),
      ∃ new, (prepareEnvFromFilesLoop h w name secretsFiles files c st).1.out = st.out ++ new ∧
        ∀ r ∈ new, isStore r = true := by
  induction files with
  | nil =>
    intro c st
    exact ⟨[], by simp [prepareEnvFromFilesLoop], by simp⟩
  | cons envfile rest ih =>
    intro c st
    rw [prepareEnvFromFilesLoop]
    split
    · split
      · exact ⟨[], by simp, by simp⟩
      · rename_i store heq
        refine out_after_emit (some (.configMap store)) rfl ?_ (ih _ _)
        rfl
    · split
      · exact ⟨[], by simp, by simp⟩
      · rename_i store vals heq
        refine out_after_emit (some (.secret store)) rfl ?_ (ih _ _)
        rfl

theorem prepareVolumesTurn_out (h : Helm) (w : World) (name : String)
    (cms : List String) (volume : String) (volumes : List Volume)
    (mountPoints : List MountPoint) (st : St) :
    ∃ new, (prepareVolumesTurn h w name cms volume volumes mountPoints st).1.out = st.out ++ new ∧
      ∀ r ∈ new, isStore r = true := by
  unfold prepareVolumesTurn
  split
  · split
    · exact ⟨[], by simp, by simp⟩
    · split
      · split
        · exact ⟨[], by simp, by simp⟩
        · exact ⟨[_], rfl, by simp [isStore]⟩
      · exact ⟨[_], rfl, by simp [isStore]⟩
  · exact ⟨[], by simp, by simp⟩

theorem prepareVolumesLoop_out (h : Helm) (w : World) (name : String)
    (cms : List String) (vols : List String) :
    ∀ (volumes : List Volume) (mountPoints : List MountPoint) (st : St),
      ∃ new, (prepareVolumesLoop h w name cms vols volumes mountPoints st).1.out = st.out ++ new ∧
        ∀ r ∈ new, isStore r = true := by
  induction vols with
  | nil =>
    intro volumes mountPoints st
    exact ⟨[], by simp [prepareVolumesLoop], by simp⟩
  | cons volume rest ih =>
    intro volumes mountPoints st
    rw [prepareVolumesLoop]
    obtain ⟨new1, h1, hall1⟩ := prepareVolumesTurn_out h w name cms volume volumes mountPoints st
    rcases ht : prepareVolumesTurn h w name cms volume volumes mountPoints st with
      ⟨st2, e | ⟨volumes2, mountPoints2⟩⟩
    · rw [ht] at h1
      exact ⟨new1, h1, hall1⟩
    · rw [ht] at h1
      dsimp only at h1 ⊢
      obtain ⟨new2, h2, hall2⟩ := ih volumes2 mountPoints2 st2
      refine ⟨new1 ++ new2, by rw [h2, h1, List.append_assoc], ?_⟩
      intro r hr
      rcases List.mem_append.mp hr with hr | hr
      · exact hall1 r hr
      · exact hall2 r hr

theorem servicePortsLoop_ports (name : String) (ps : List String) :
    ∀ (i : Nat) (ports : List ServicePort) (reg : Registry),
      (servicePortsLoop name i ps ports reg).1 =
        ports ++ ps.map (fun p => ⟨containerPortOf p, containerPortOf p⟩) := by
  induction ps with
  | nil => intro i ports reg; simp [servicePortsLoop]
  | cons p rest ih =>
    intro i ports reg
    rw [servicePortsLoop, ih]
    simp

theorem externalService_eq (h : Helm) (name : String) (s : Service) :
    externalService h name s = if s.Expose = [] then [] else [.service (nodePortService h name s)] := by
  unfold externalService nodePortService
  cases s.Expose with
  | nil => simp
  | cons e es => simp

/-- What `generateServicesAndIngresses` returns when it returns. -/
theorem generateServicesAndIngresses_ok (h : Helm) (name : String) (s : Service) (st : St)
    (res : List Resource) (hok : (generateServicesAndIngresses h name s st).2 = .ok res) :
    (mapGet s.Labels h.LABEL_INGRESS = none ∧
      res = [.service (primaryService h name s)] ++ externalService h name s) ∨
    (∃ v, mapGet s.Labels h.LABEL_INGRESS = some v ∧ (Atoi v).2 = false ∧
      res = [.service (primaryService h name s), .ingress (ingressOf h name (Atoi v).1)] ++
        externalService h name s) := by
  unfold generateServicesAndIngresses at hok
  have hp := servicePortsLoop_ports name s.Ports 0 [] st.reg
  rcases hl : servicePortsLoop name 0 s.Ports [] st.reg with ⟨ports, reg⟩
  rw [hl] at hok hp
  simp only [List.nil_append] at hp
  subst hp
  dsimp only at hok
  cases hg : mapGet s.Labels h.LABEL_INGRESS with
  | none =>
    rw [hg] at hok
    simp only [Except.ok.injEq] at hok
    exact Or.inl ⟨rfl, hok.symm⟩
  | some v =>
    rw [hg] at hok
    dsimp only at hok
    by_cases hv : (Atoi v).2 = true
    · rw [if_pos hv] at hok
      cases hok
    · rw [if_neg hv] at hok
      unfold createIngress at hok
      cases hm : mapGet st.Values name with
      | none =>
        rw [hm] at hok
        cases hok
      | some m =>
        rw [hm] at hok
        simp only [Except.ok.injEq] at hok
        exact Or.inr ⟨v, rfl, by simpa using hv, hok.symm⟩

theorem generateServicesAndIngresses_out (h : Helm) (name : String) (s : Service) (st : St) :
    (generateServicesAndIngresses h name s st).1.out = st.out := by
  unfold generateServicesAndIngresses
  rcases servicePortsLoop name 0 s.Ports [] st.reg with ⟨ports, reg⟩
  dsimp only
  cases mapGet s.Labels h.LABEL_INGRESS with
  | none => rfl
  | some v =>
    dsimp only
    by_cases hv : (Atoi v).2 = true
    · rw [if_pos hv]
    · rw [if_neg hv]
      cases createIngress h name (Atoi v).1 st.Values with
      | none => rfl
      | some r => rfl

/-- The deployment `parseService` sends last. -/
theorem parseServiceEnd_out (h : Helm) (name : String) (s : Service) (c : Container)
    (vols : List Volume) (ics : List Container) (st : St) :
    ((parseServiceEnd h name s c vols ics st).2 = .ok () ∧
      ∃ services,
        (parseServiceEnd h name s c vols ics st).1.out =
          st.out ++ services.map some ++
            [some (.deployment ⟨name, [c], vols, buildSelector h name, buildSelector h name, ics⟩),
             none] ∧
        ((s.Ports = [] ∧ s.Expose = []) → services = []) ∧
        (¬ (s.Ports = [] ∧ s.Expose = []) →
          (generateServicesAndIngresses h name s st).2 = .ok services)) ∨
    ((∃ e, (parseServiceEnd h name s c vols ics st).2 = .error e) ∧
      ∃ services, (parseServiceEnd h name s c vols ics st).1.out = st.out ++ services.map some ∧
        ((s.Ports = [] ∧ s.Expose = []) → services = [])) := by
  unfold parseServiceEnd
  by_cases hp : s.Ports.length > 0 ∨ s.Expose.length > 0
  · have hne : ¬ (s.Ports = [] ∧ s.Expose = []) := by
      rintro ⟨h1, h2⟩
      rw [h1, h2] at hp
      simp at hp
    rw [if_pos hp]
    have hout := generateServicesAndIngresses_out h name s st
    rcases hg : generateServicesAndIngresses h name s st with ⟨st2, _ | services⟩
    · right
      rw [hg] at hout
      exact ⟨⟨_, rfl⟩, [], by simpa using hout, fun _ => rfl⟩
    · rw [hg] at hout
      dsimp only at hout ⊢
      split
      · split
        · right
          refine ⟨⟨_, rfl⟩, services, ?_, fun hc => absurd hc hne⟩
          split <;> simp [hout]
        · left
          refine ⟨rfl, services, ?_, fun hc => absurd hc hne, fun _ => rfl⟩
          split <;> simp [St.emit, hout]
      · left
        refine ⟨rfl, services, ?_, fun hc => absurd hc hne, fun _ => rfl⟩
        split <;> simp [St.emit, hout]
  · have he : s.Ports = [] ∧ s.Expose = [] := by
      constructor
      · cases hs : s.Ports with
        | nil => rfl
        | cons a l => exact absurd (Or.inl (by simp [hs])) hp
      · cases hs : s.Expose with
        | nil => rfl
        | cons a l => exact absurd (Or.inr (by simp [hs])) hp
    rw [if_neg hp]
    dsimp only
    split
    · split
      · right
        refine ⟨⟨_, rfl⟩, [], ?_, fun _ => rfl⟩
        split <;> simp
      · left
        refine ⟨rfl, [], ?_, fun _ => rfl, fun hc => absurd he hc⟩
        split <;> simp [St.emit]
    · left
      refine ⟨rfl, [], ?_, fun _ => rfl, fun hc => absurd he hc⟩
      split <;> simp [St.emit]

theorem prepareEnvFromFiles_out (h : Helm) (w : World) (name : String) (s : Service)
    (c : Container) (st : St) :
    ∃ new, (prepareEnvFromFiles h w name s c st).1.out = st.out ++ new ∧
      ∀ r ∈ new, isStore r = true :=
  prepareEnvFromFilesLoop_out h w name _ s.EnvFiles c st

theorem prepareVolumes_out (h : Helm) (w : World) (name : String) (s : Service)
    (c : Container) (st : St) :
    ∃ new, (prepareVolumes h w name s c st).1.out = st.out ++ new ∧
      ∀ r ∈ new, isStore r = true := by
  unfold prepareVolumes
  obtain ⟨new, hnew, hall⟩ := prepareVolumesLoop_out h w name
    (configMapsVolumes h s) s.Volumes [] [] st
  refine ⟨new, ?_, hall⟩
  rcases hl : prepareVolumesLoop h w name
    (configMapsVolumes h s) s.Volumes [] [] st with ⟨st2, _ | ⟨volumes, mountPoints⟩⟩
  · rw [hl] at hnew
    exact hnew
  · rw [hl] at hnew
    exact hnew

/-- What a run of `parseService` has sent on `ret`: stores and claims, then
the services and the ingress, then, when it gets to its end, the deployment
and the end marker. -/
theorem parseService_out (h : Helm) (w : World) (sch : Sched) (name : String) (s : Service)
    (st : St) :
    ∃ stores services, (∀ r ∈ stores, isStore r = true) ∧
      ((s.Ports = [] ∧ s.Expose = []) → services = []) ∧
      (((parseService h w sch name s st).2 = .ok () ∧
          ∃ c vols ics,
            (parseService h w sch name s st).1.out =
              st.out ++ stores ++ services.map some ++
                [some (.deployment
                  ⟨name, [c], vols, buildSelector h name, buildSelector h name, ics⟩), none] ∧
            (¬ (s.Ports = [] ∧ s.Expose = []) →
              ∃ st0, (generateServicesAndIngresses h name s st0).2 = .ok services)) ∨
        ((∃ e, (parseService h w sch name s st).2 = .error e) ∧
          (parseService h w sch name s st).1.out = st.out ++ stores ++ services.map some)) := by
  unfold parseService
  cases NewContainer h name s.Image (sch.rangeOrder s.Environment) s.Labels with
  | none => exact ⟨[], [], by simp, fun _ => rfl, Or.inr ⟨⟨_, rfl⟩, by simp⟩⟩
  | some c0 =>
    dsimp only
    obtain ⟨new1, h1, hall1⟩ := prepareEnvFromFiles_out h w name s
      { c0 with Image := "\x7b\x7b .Values." ++ name ++ ".image \x7d\x7d" }
      { st with Values := mapSet st.Values name [("image", .str s.Image)] }
    rcases he : prepareEnvFromFiles h w name s
      { c0 with Image := "\x7b\x7b .Values." ++ name ++ ".image \x7d\x7d" }
      { st with Values := mapSet st.Values name [("image", .str s.Image)] } with ⟨st1, e1 | c1⟩
    · rw [he] at h1
      exact ⟨new1, [], hall1, fun _ => rfl, Or.inr ⟨⟨_, rfl⟩, by simpa using h1⟩⟩
    · rw [he] at h1
      dsimp only at h1 ⊢
      cases prepareProbes h w s c1 with
      | error e2 => exact ⟨new1, [], hall1, fun _ => rfl, Or.inr ⟨⟨_, rfl⟩, by simpa using h1⟩⟩
      | ok c2 =>
        dsimp only
        obtain ⟨new2, h2, hall2⟩ := prepareVolumes_out h w name s (generateContainerPorts s name c2) st1
        have hall : ∀ r ∈ new1 ++ new2, isStore r = true := by
          intro r hr
          rcases List.mem_append.mp hr with hr | hr
          · exact hall1 r hr
          · exact hall2 r hr
        rcases hv : prepareVolumes h w name s (generateContainerPorts s name c2) st1 with
          ⟨st2, e3 | ⟨volumes, c3⟩⟩
        · rw [hv] at h2
          dsimp only at h2
          exact ⟨new1 ++ new2, [], hall, fun _ => rfl,
            Or.inr ⟨⟨_, rfl⟩, by simp [h2, h1]⟩⟩
        · rw [hv] at h2
          dsimp only at h2 ⊢
          rcases hi : prepareInitContainers h sch name s st2.reg with ⟨reg, e4 | ics⟩
          · exact ⟨new1 ++ new2, [], hall, fun _ => rfl,
              Or.inr ⟨⟨_, rfl⟩, by simp [h2, h1]⟩⟩
          · dsimp only
            have hout0 : ({ st2 with reg := reg } : St).out = st.out ++ (new1 ++ new2) := by
              simp [h2, h1]
            rcases parseServiceEnd_out h name s c3 volumes ics { st2 with reg := reg } with
              ⟨hok, services, hout, hnone, hgen⟩ | ⟨herr, services, hout, hnone⟩
            · refine ⟨new1 ++ new2, services, hall, hnone, Or.inl ⟨hok, c3, volumes, ics, ?_, ?_⟩⟩
              · rw [hout, hout0]
              · intro hne
                exact ⟨_, hgen hne⟩
            · refine ⟨new1 ++ new2, services, hall, hnone, Or.inr ⟨herr, ?_⟩⟩
              rw [hout, hout0]

theorem emittedServices_stores (l : List (Option Resource)) (hl : ∀ r ∈ l, isStore r = true) :
    emittedServices l = [] := by
  induction l with
  | nil => rfl
  | cons r l ih =>
    have hr := hl r (List.mem_cons_self _ _)
    have ht := ih (fun x hx => hl x (List.mem_cons_of_mem _ hx))
    unfold emittedServices at ht ⊢
    rw [List.filterMap_cons, ht]
    rcases r with _ | (_ | _ | _ | _ | _ | _) <;> simp [isStore] at hr ⊢

theorem emittedIngresses_stores (l : List (Option Resource)) (hl : ∀ r ∈ l, isStore r = true) :
    emittedIngresses l = [] := by
  induction l with
  | nil => rfl
  | cons r l ih =>
    have hr := hl r (List.mem_cons_self _ _)
    have ht := ih (fun x hx => hl x (List.mem_cons_of_mem _ hx))
    unfold emittedIngresses at ht ⊢
    rw [List.filterMap_cons, ht]
    rcases r with _ | (_ | _ | _ | _ | _ | _) <;> simp [isStore] at hr ⊢

theorem emittedServices_append (a b : List (Option Resource)) :
    emittedServices (a ++ b) = emittedServices a ++ emittedServices b := by
  simp [emittedServices, List.filterMap_append]

theorem emittedIngresses_append (a b : List (Option Resource)) :
    emittedIngresses (a ++ b) = emittedIngresses a ++ emittedIngresses b := by
  simp [emittedIngresses, List.filterMap_append]

/-- C6, as amended: a run of `parseService` sends no network service when the
service has neither declared nor exposed ports; in a run that gets to its end
for a service with a declared or an exposed port, the network services sent
are the primary one, named after the service, with one port per declared
mapping, followed, when and only when the exposed list is not empty, by one of
type `NodePort` named `name-external` that lists the exposed ports. -/
theorem parseService_network_services (h : Helm) (w : World) (sch : Sched) (name : String)
    (s : Service) (st : St) :
    ∃ new, (parseService h w sch name s st).1.out = st.out ++ new ∧
      (s.Ports = [] → s.Expose = [] → emittedServices new = []) ∧
      ((parseService h w sch name s st).2 = .ok () → ¬ (s.Ports = [] ∧ s.Expose = []) →
        emittedServices new =
          primaryService h name s ::
            (if s.Expose = [] then [] else [nodePortService h name s])) := by
  obtain ⟨stores, services, hall, hnone, hcase⟩ := parseService_out h w sch name s st
  rcases hcase with ⟨hok, c, vols, ics, hout, hgen⟩ | ⟨⟨e, herr⟩, hout⟩
  · refine ⟨stores ++ services.map some ++
      [some (.deployment ⟨name, [c], vols, buildSelector h name, buildSelector h name, ics⟩),
       none], by rw [hout]; simp, ?_, ?_⟩
    · intro hp he
      rw [hnone ⟨hp, he⟩, emittedServices_append, emittedServices_append,
        emittedServices_stores stores hall]
      rfl
    · intro _ hne
      obtain ⟨st0, hg⟩ := hgen hne
      rw [emittedServices_append, emittedServices_append, emittedServices_stores stores hall]
      rcases generateServicesAndIngresses_ok h name s st0 services hg with
        ⟨_, hres⟩ | ⟨v, _, _, hres⟩
      · rw [hres, externalService_eq]
        by_cases hx : s.Expose = [] <;> simp [emittedServices, hx]
      · rw [hres, externalService_eq]
        by_cases hx : s.Expose = [] <;> simp [emittedServices, hx]
  · refine ⟨stores ++ services.map some, by rw [hout]; simp, ?_, ?_⟩
    · intro hp he
      rw [hnone ⟨hp, he⟩, emittedServices_append, emittedServices_stores stores hall]
      rfl
    · intro hok
      rw [herr] at hok
      cases hok

/-- Witness of C6 as amended: for `database` the run gets to its end and sends the
primary and the `NodePort` service; for a service with an image only it sends
none. -/
theorem parseService_network_services_witness :
    (parseService katenaryHelm emptyWorld quietSched "database" databaseService St.init).2 =
      .ok () ∧
    emittedServices
      (parseService katenaryHelm emptyWorld quietSched "database" databaseService St.init).1.out =
      [primaryService katenaryHelm "database" databaseService,
       nodePortService katenaryHelm "database" databaseService] ∧
    emittedServices
      (parseService katenaryHelm emptyWorld quietSched "http2" (Service.ofImage "nginx")
        St.init).1.out = [] := by
  obtain ⟨new, hout, _, hsome⟩ :=
    parseService_network_services katenaryHelm emptyWorld quietSched "database" databaseService
      St.init
  obtain ⟨new2, hout2, hnone, _⟩ :=
    parseService_network_services katenaryHelm emptyWorld quietSched "http2"
      (Service.ofImage "nginx") St.init
  have hok : (parseService katenaryHelm emptyWorld quietSched "database" databaseService
      St.init).2 = .ok () := by decide
  refine ⟨hok, ?_, ?_⟩
  · rw [hout]
    exact hsome hok (by decide)
  · rw [hout2]
    exact hnone rfl rfl

/-- Counterexample to C6 as stated: the service `web` with the declared port
`80:80` and the ingress label `http`.  `generateServicesAndIngresses` stops the
run with `log.Fatalf` (the label is not an integer) before anything is sent:
the service has a declared port and no network service is sent, where the
claim counts the primary one. -/
theorem parseService_services_counterexample :
    ¬ (badIngressService.Ports = [] ∧ badIngressService.Expose = []) ∧
    parseService katenaryHelm emptyWorld quietSched "web" badIngressService St.init =
      ({ St.init with
         Values := [("web", [("image", .str "nginx")])],
         reg := { Registry.init with
                  servicesMap := [("web", 80)],
                  goroutines := [.detectedDelivery "web" 80] } },
       .error (.exit 1
         "The given port \"http\" as ingress port in \"web\" service is not an integer\n")) ∧
    emittedServices
      (parseService katenaryHelm emptyWorld quietSched "web" badIngressService St.init).1.out =
      [] ∧
    emittedServices
      (parseService katenaryHelm emptyWorld quietSched "web" badIngressService St.init).1.out ≠
      primaryService katenaryHelm "web" badIngressService ::
        (if badIngressService.Expose = [] then [] else
          [nodePortService katenaryHelm "web" badIngressService]) := by
  refine ⟨by decide, by decide, by decide, by decide⟩

/-- C7, as amended: for a service with a declared or an exposed port whose
labels carry the ingress port label with a value that `Atoi` accepts, a run of
`parseService` that gets to its end sends exactly one ingress, the one for
that port. -/
theorem parseService_one_ingress (h : Helm) (w : World) (sch : Sched) (name : String)
    (s : Service) (st : St) (v : String)
    (hlabel : mapGet s.Labels h.LABEL_INGRESS = some v) (_hint : (Atoi v).2 = false)
    (hports : ¬ (s.Ports = [] ∧ s.Expose = []))
    (hok : (parseService h w sch name s st).2 = .ok ()) :
    ∃ new, (parseService h w sch name s st).1.out = st.out ++ new ∧
      emittedIngresses new = [ingressOf h name (Atoi v).1] := by
  obtain ⟨stores, services, hall, hnone, hcase⟩ := parseService_out h w sch name s st
  rcases hcase with ⟨_, c, vols, ics, hout, hgen⟩ | ⟨⟨e, herr⟩, _⟩
  · refine ⟨stores ++ services.map some ++
      [some (.deployment ⟨name, [c], vols, buildSelector h name, buildSelector h name, ics⟩),
       none], by rw [hout]; simp, ?_⟩
    obtain ⟨st0, hg⟩ := hgen hports
    rw [emittedIngresses_append, emittedIngresses_append, emittedIngresses_stores stores hall]
    rcases generateServicesAndIngresses_ok h name s st0 services hg with
      ⟨hno, _⟩ | ⟨v2, hv2, _, hres⟩
    · rw [hno] at hlabel
      cases hlabel
    · rw [hlabel] at hv2
      cases hv2
      rw [hres, externalService_eq]
      by_cases hx : s.Expose = [] <;> simp [emittedIngresses, hx]
  · rw [herr] at hok
    cases hok

/-- Witness of C7: the service `web` of the tests. -/
theorem parseService_one_ingress_witness :
    ∃ new,
      (parseService katenaryHelm emptyWorld quietSched "web" webService St.init).1.out =
        St.init.out ++ new ∧
      emittedIngresses new = [ingressOf katenaryHelm "web" (Atoi "80").1] :=
  parseService_one_ingress katenaryHelm emptyWorld quietSched "web" webService St.init "80"
    (by decide) (by decide) (by decide) (by decide)

/-- Counterexample to C7 as stated: a service with the ingress label `80` and
neither declared nor exposed ports.  The run gets to its end, and nothing it
sends is an ingress: `generateServicesAndIngresses` is called only under
`len(s.Ports) > 0 || len(s.Expose) > 0`. -/
theorem parseService_ingress_counterexample :
    mapGet ({ Service.ofImage "nginx" with Labels := [("katenary.io/ingress", "80")] } : Service).Labels
      katenaryHelm.LABEL_INGRESS = some "80" ∧
    Atoi "80" = (80, false) ∧
    (parseService katenaryHelm emptyWorld quietSched "web"
      { Service.ofImage "nginx" with Labels := [("katenary.io/ingress", "80")] } St.init).2 =
      .ok () ∧
    emittedIngresses
      (parseService katenaryHelm emptyWorld quietSched "web"
        { Service.ofImage "nginx" with Labels := [("katenary.io/ingress", "80")] }
        St.init).1.out = [] := by
  refine ⟨by decide, by decide, by decide, by decide⟩

/-! ### `prepareVolumes` -/

theorem prepareVolumesLoop_append (h : Helm) (w : World) (name : String) (cms : List String)
    (pre l : List String) :
    ∀ (volumes : List Volume) (mountPoints : List MountPoint) (st : St),
      prepareVolumesLoop h w name cms (pre ++ l) volumes mountPoints st =
        match prepareVolumesLoop h w name cms pre volumes mountPoints st with
        | (st2, .error e) => (st2, .error e)
        | (st2, .ok (volumes2, mountPoints2)) =>
          prepareVolumesLoop h w name cms l volumes2 mountPoints2 st2 := by
  induction pre with
  | nil => intro volumes mountPoints st; rfl
  | cons volume rest ih =>
    intro volumes mountPoints st
    rw [List.cons_append, prepareVolumesLoop, prepareVolumesLoop]
    rcases prepareVolumesTurn h w name cms volume volumes mountPoints st with
      ⟨st2, e | ⟨volumes2, mountPoints2⟩⟩
    · rfl
    · exact ih volumes2 mountPoints2 st2

theorem prepareVolumesTurn_grows (h : Helm) (w : World) (name : String) (cms : List String)
    (volume : String) (volumes : List Volume) (mountPoints : List MountPoint) (st st2 : St)
    (volumes2 : List Volume) (mountPoints2 : List MountPoint)
    (ht : prepareVolumesTurn h w name cms volume volumes mountPoints st =
      (st2, .ok (volumes2, mountPoints2))) :
    (∃ a, volumes2 = volumes ++ a) ∧ (∃ b, mountPoints2 = mountPoints ++ b) := by
  unfold prepareVolumesTurn at ht
  split at ht
  · split at ht
    · cases ht
      exact ⟨⟨[], by simp⟩, ⟨[], by simp⟩⟩
    · split at ht
      · split at ht
        · cases ht
        · cases ht
          exact ⟨⟨_, rfl⟩, ⟨_, rfl⟩⟩
      · cases ht
        exact ⟨⟨_, rfl⟩, ⟨_, rfl⟩⟩
  · cases ht

theorem prepareVolumesLoop_grows (h : Helm) (w : World) (name : String) (cms : List String)
    (l : List String) :
    ∀ (volumes : List Volume) (mountPoints : List MountPoint) (st st2 : St)
      (volumes2 : List Volume) (mountPoints2 : List MountPoint),
      prepareVolumesLoop h w name cms l volumes mountPoints st =
        (st2, .ok (volumes2, mountPoints2)) →
      (∃ a, volumes2 = volumes ++ a) ∧ (∃ b, mountPoints2 = mountPoints ++ b) := by
  induction l with
  | nil =>
    intro volumes mountPoints st st2 volumes2 mountPoints2 hl
    simp only [prepareVolumesLoop, Prod.mk.injEq, Except.ok.injEq] at hl
    obtain ⟨_, hv, hm⟩ := hl
    exact ⟨⟨[], by simp [hv]⟩, ⟨[], by simp [hm]⟩⟩
  | cons volume rest ih =>
    intro volumes mountPoints st st2 volumes2 mountPoints2 hl
    rw [prepareVolumesLoop] at hl
    rcases ht : prepareVolumesTurn h w name cms volume volumes mountPoints st with
      ⟨st1, e | ⟨volumes1, mountPoints1⟩⟩
    · rw [ht] at hl
      cases hl
    · rw [ht] at hl
      obtain ⟨⟨a1, ha1⟩, ⟨b1, hb1⟩⟩ :=
        prepareVolumesTurn_grows h w name cms volume volumes mountPoints st st1 volumes1
          mountPoints1 ht
      obtain ⟨⟨a2, ha2⟩, ⟨b2, hb2⟩⟩ := ih volumes1 mountPoints1 st1 st2 volumes2 mountPoints2 hl
      exact ⟨⟨a1 ++ a2, by rw [ha2, ha1, List.append_assoc]⟩,
        ⟨b1 ++ b2, by rw [hb2, hb1, List.append_assoc]⟩⟩

theorem volumeValue_set (st : St) (name volname v2 : String) (r : Option Resource)
    (hv : volumeValue st name volname = some ⟨false, "1Gi"⟩ ∨ v2 = volname) :
    volumeValue
      ({ st with
         VolumeValues :=
           mapSet st.VolumeValues name
             (mapSet ((mapGet st.VolumeValues name).getD []) v2 ⟨false, "1Gi"⟩) }.emit r)
      name volname = some ⟨false, "1Gi"⟩ := by
  unfold volumeValue St.emit
  simp only [mapGet_mapSet_same, Option.some_bind]
  by_cases he : v2 = volname
  · subst he
    exact mapGet_mapSet_same _ _ _
  · rw [mapGet_mapSet_other _ _ _ _ (fun e => he e.symm)]
    rcases hv with hv | hv
    · unfold volumeValue at hv
      cases hm : mapGet st.VolumeValues name with
      | none => rw [hm] at hv; simp at hv
      | some m =>
        rw [hm] at hv
        simpa using hv
    · exact absurd hv he

theorem prepareVolumesTurn_keeps (h : Helm) (w : World) (name : String) (cms : List String)
    (volname : String) (volume : String) (volumes : List Volume)
    (mountPoints : List MountPoint) (st : St)
    (hv : volumeValue st name volname = some ⟨false, "1Gi"⟩) :
    volumeValue (prepareVolumesTurn h w name cms volume volumes mountPoints st).1 name volname =
      some ⟨false, "1Gi"⟩ := by
  unfold prepareVolumesTurn
  split
  · split
    · exact hv
    · split
      · split
        · exact hv
        · exact hv
      · exact volumeValue_set st name volname _ _ (Or.inl hv)
  · exact hv

theorem prepareVolumesLoop_keeps (h : Helm) (w : World) (name : String) (cms : List String)
    (volname : String) (l : List String) :
    ∀ (volumes : List Volume) (mountPoints : List MountPoint) (st : St),
      volumeValue st name volname = some ⟨false, "1Gi"⟩ →
      volumeValue (prepareVolumesLoop h w name cms l volumes mountPoints st).1 name volname =
        some ⟨false, "1Gi"⟩ := by
  induction l with
  | nil => intro volumes mountPoints st hv; exact hv
  | cons volume rest ih =>
    intro volumes mountPoints st hv
    rw [prepareVolumesLoop]
    have hk := prepareVolumesTurn_keeps h w name cms volname volume volumes mountPoints st hv
    rcases ht : prepareVolumesTurn h w name cms volume volumes mountPoints st with
      ⟨st1, e | ⟨volumes1, mountPoints1⟩⟩
    · rw [ht] at hk
      exact hk
    · rw [ht] at hk
      exact ih volumes1 mountPoints1 st1 hk

theorem replaceChars_remove (c : Char) :
    ∀ (a : List Char), replaceChars [c] [] 0 none a = a.filter (fun x => x ≠ c) := by
  intro a
  induction a with
  | nil => rfl
  | cons x a ih =>
    rw [replaceChars_cons_none]
    by_cases hx : c = x
    · subst hx
      rw [if_pos (by simp [List.isPrefixOf])]
      simp [ih]
    · rw [if_neg (by simp [List.isPrefixOf, hx]), ih]
      have hx2 : x ≠ c := fun e => hx e.symm
      simp [hx2]

/-- One turn of the loop on a mount `vol:path` that is a persistent claim. -/
theorem prepareVolumesTurn_claim (h : Helm) (w : World) (name : String) (cms : List String)
    (vol path : String) (volumes : List Volume) (mountPoints : List MountPoint) (st : St)
    (hvol : ':' ∉ vol.data) (hpath : ':' ∉ path.data)
    (hdot : HasPrefix vol "." = false) (hslash : HasPrefix vol "/" = false)
    (hcm : cms.any (fun cmVol => vol = TrimSpace cmVol) = false) :
    prepareVolumesTurn h w name cms (vol ++ ":" ++ path) volumes mountPoints st =
      ({ st with
         VolumeValues :=
           mapSet st.VolumeValues name
             (mapSet ((mapGet st.VolumeValues name).getD []) (ReplaceAll vol "-" "")
               ⟨false, "1Gi"⟩) }.emit
        (some (.storage ⟨name, ReplaceAll vol "-" ""⟩)),
       .ok
        (volumes ++
          [⟨ReplaceAll vol "-" "",
            .persistentVolumeClaim (h.RELEASE_NAME ++ "-" ++ ReplaceAll vol "-" "")⟩],
         mountPoints ++ [⟨ReplaceAll vol "-" "", path⟩])) := by
  unfold prepareVolumesTurn
  rw [Split_colon_two vol path hvol hpath]
  simp only [hcm, hdot, hslash]
  simp

/-- C8: for a service and a mount `vol:path` whose source starts with neither
`.` nor `/` and is not listed in the volume-to-configmap label, the turn of the
loop of `prepareVolumes` for that mount sends exactly one storage claim, made
for the service and the volume name with every `-` removed, appends one volume
with a `persistentVolumeClaim` reference and one mount point at `path`, and
sets `VolumeValues[name][volname]` to `enabled: false`, `capacity: "1Gi"`;
and when `prepareVolumes` returns, the volume is among the volumes returned,
the mount point among the container's, the claim among what was sent, and the
entry still `enabled: false`, `capacity: "1Gi"`. -/
theorem prepareVolumes_persistent_claim (h : Helm) (w : World) (name : String) (s : Service)
    (vol path : String) (hvol : ':' ∉ vol.data) (hpath : ':' ∉ path.data)
    (hdot : HasPrefix vol "." = false) (hslash : HasPrefix vol "/" = false)
    (hcm : (configMapsVolumes h s).any (fun cmVol => vol = TrimSpace cmVol) = false) :
    (∀ rest volumes mountPoints st,
      prepareVolumesLoop h w name (configMapsVolumes h s) ((vol ++ ":" ++ path) :: rest)
          volumes mountPoints st =
        prepareVolumesLoop h w name (configMapsVolumes h s) rest
          (volumes ++
            [⟨ReplaceAll vol "-" "",
              .persistentVolumeClaim (h.RELEASE_NAME ++ "-" ++ ReplaceAll vol "-" "")⟩])
          (mountPoints ++ [⟨ReplaceAll vol "-" "", path⟩])
          ({ st with
             VolumeValues :=
               mapSet st.VolumeValues name
                 (mapSet ((mapGet st.VolumeValues name).getD []) (ReplaceAll vol "-" "")
                   ⟨false, "1Gi"⟩) }.emit
            (some (.storage ⟨name, ReplaceAll vol "-" ""⟩)))) ∧
    (ReplaceAll vol "-" "").data = vol.data.filter (fun x => x ≠ '-') ∧
    (∀ pre post c st st2 vols c2, s.Volumes = pre ++ (vol ++ ":" ++ path) :: post →
      prepareVolumes h w name s c st = (st2, .ok (vols, c2)) →
      (⟨ReplaceAll vol "-" "",
          .persistentVolumeClaim (h.RELEASE_NAME ++ "-" ++ ReplaceAll vol "-" "")⟩ : Volume) ∈ vols ∧
      (⟨ReplaceAll vol "-" "", path⟩ : MountPoint) ∈ c2.VolumeMounts ∧
      (∃ new, st2.out = st.out ++ new ∧
        some (.storage ⟨name, ReplaceAll vol "-" ""⟩) ∈ new) ∧
      volumeValue st2 name (ReplaceAll vol "-" "") = some ⟨false, "1Gi"⟩) := by
  have hturn := fun volumes mountPoints st =>
    prepareVolumesTurn_claim h w name (configMapsVolumes h s) vol path volumes mountPoints st
      hvol hpath hdot hslash hcm
  refine ⟨?_, ?_, ?_⟩
  · intro rest volumes mountPoints st
    rw [prepareVolumesLoop, hturn]
  · rw [ReplaceAll_data _ _ _ (by decide)]
    exact replaceChars_remove '-' vol.data
  · intro pre post c st st2 vols c2 hs hret
    unfold prepareVolumes at hret
    rw [hs, prepareVolumesLoop_append] at hret
    obtain ⟨new0, hnew0, _⟩ :=
      prepareVolumesLoop_out h w name (configMapsVolumes h s) pre [] [] st
    rcases hpre : prepareVolumesLoop h w name (configMapsVolumes h s) pre [] [] st with
      ⟨st1, e | ⟨v1, m1⟩⟩
    · rw [hpre] at hret
      cases hret
    · rw [hpre] at hret hnew0
      dsimp only at hret hnew0
      rw [prepareVolumesLoop, hturn] at hret
      dsimp only at hret
      obtain ⟨new2, hnew2, _⟩ :=
        prepareVolumesLoop_out h w name (configMapsVolumes h s) post
          (v1 ++ [⟨ReplaceAll vol "-" "",
            .persistentVolumeClaim (h.RELEASE_NAME ++ "-" ++ ReplaceAll vol "-" "")⟩])
          (m1 ++ [⟨ReplaceAll vol "-" "", path⟩])
          ({ st1 with
             VolumeValues :=
               mapSet st1.VolumeValues name
                 (mapSet ((mapGet st1.VolumeValues name).getD []) (ReplaceAll vol "-" "")
                   ⟨false, "1Gi"⟩) }.emit
            (some (.storage ⟨name, ReplaceAll vol "-" ""⟩)))
      have hkeep :=
        prepareVolumesLoop_keeps h w name (configMapsVolumes h s) (ReplaceAll vol "-" "") post
          (v1 ++ [⟨ReplaceAll vol "-" "",
            .persistentVolumeClaim (h.RELEASE_NAME ++ "-" ++ ReplaceAll vol "-" "")⟩])
          (m1 ++ [⟨ReplaceAll vol "-" "", path⟩])
          ({ st1 with
             VolumeValues :=
               mapSet st1.VolumeValues name
                 (mapSet ((mapGet st1.VolumeValues name).getD []) (ReplaceAll vol "-" "")
                   ⟨false, "1Gi"⟩) }.emit
            (some (.storage ⟨name, ReplaceAll vol "-" ""⟩)))
          (volumeValue_set st1 name _ _ _ (Or.inr rfl))
      rcases hpost : prepareVolumesLoop h w name (configMapsVolumes h s) post
          (v1 ++ [⟨ReplaceAll vol "-" "",
            .persistentVolumeClaim (h.RELEASE_NAME ++ "-" ++ ReplaceAll vol "-" "")⟩])
          (m1 ++ [⟨ReplaceAll vol "-" "", path⟩])
          ({ st1 with
             VolumeValues :=
               mapSet st1.VolumeValues name
                 (mapSet ((mapGet st1.VolumeValues name).getD []) (ReplaceAll vol "-" "")
                   ⟨false, "1Gi"⟩) }.emit
            (some (.storage ⟨name, ReplaceAll vol "-" ""⟩))) with ⟨st3, e | ⟨v3, m3⟩⟩
      · rw [hpost] at hret
        cases hret
      · obtain ⟨⟨a, ha⟩, ⟨b, hb⟩⟩ :=
          prepareVolumesLoop_grows h w name (configMapsVolumes h s) post _ _ _ _ _ _ hpost
        rw [hpost] at hret hnew2 hkeep
        simp only [Prod.mk.injEq, Except.ok.injEq] at hret
        obtain ⟨hst, hvols, hc2⟩ := hret
        subst hst hvols hc2
        refine ⟨by rw [ha]; simp, by rw [hb]; simp, ?_, hkeep⟩
        refine ⟨new0 ++ [some (.storage ⟨name, ReplaceAll vol "-" ""⟩)] ++ new2, ?_, by simp⟩
        dsimp only at hnew2
        rw [hnew2]
        simp [St.emit, hnew0]

/-- Witness of C8: the mount `data:/var/lib/mysql` of the service `database`. -/
theorem prepareVolumes_persistent_claim_witness :
    (⟨"data", "/var/lib/mysql"⟩ : MountPoint) ∈
      ({ bareContainer with VolumeMounts := [⟨"data", "/var/lib/mysql"⟩] } : Container).VolumeMounts ∧
    volumeValue
      { St.init with
        VolumeValues := [("database", [("data", ⟨false, "1Gi"⟩)])]
        out := [some (.storage ⟨"database", "data"⟩)] }
      "database" "data" = some ⟨false, "1Gi"⟩ :=
  ⟨((prepareVolumes_persistent_claim katenaryHelm emptyWorld "database" databaseService
      "data" "/var/lib/mysql" (by decide) (by decide) (by decide) (by decide) (by decide)).2.2
      [] [] bareContainer St.init
      { St.init with
        VolumeValues := [("database", [("data", ⟨false, "1Gi"⟩)])]
        out := [some (.storage ⟨"database", "data"⟩)] }
      [⟨"data", .persistentVolumeClaim "\x7b\x7b .Release.Name \x7d\x7d-data"⟩]
      { bareContainer with VolumeMounts := [⟨"data", "/var/lib/mysql"⟩] }
      (by decide) (by decide)).2.1,
   ((prepareVolumes_persistent_claim katenaryHelm emptyWorld "database" databaseService
      "data" "/var/lib/mysql" (by decide) (by decide) (by decide) (by decide) (by decide)).2.2
      [] [] bareContainer St.init
      { St.init with
        VolumeValues := [("database", [("data", ⟨false, "1Gi"⟩)])]
        out := [some (.storage ⟨"database", "data"⟩)] }
      [⟨"data", .persistentVolumeClaim "\x7b\x7b .Release.Name \x7d\x7d-data"⟩]
      { bareContainer with VolumeMounts := [⟨"data", "/var/lib/mysql"⟩] }
      (by decide) (by decide)).2.2.2⟩

/-- A mount `src:path` whose source starts with `.` or `/` and is not listed
in the volume-to-configmap label is skipped: the turn of the loop changes
nothing. -/
theorem prepareVolumesTurn_local_skipped (h : Helm) (w : World) (name : String)
    (cms : List String) (src path : String) (volumes : List Volume)
    (mountPoints : List MountPoint) (st : St)
    (hsrc : ':' ∉ src.data) (hpath : ':' ∉ path.data)
    (hlocal : HasPrefix src "." = true ∨ HasPrefix src "/" = true)
    (hcm : cms.any (fun cmVol => src = TrimSpace cmVol) = false) :
    prepareVolumesTurn h w name cms (src ++ ":" ++ path) volumes mountPoints st =
      (st, .ok (volumes, mountPoints)) := by
  unfold prepareVolumesTurn
  rw [Split_colon_two src path hsrc hpath]
  rcases hlocal with hl | hl <;> simp [hcm, hl]

/-- C10, at the failing input: the service `novol` of the tests, whose one
volume is `/tmp/data`.  The split of the mount at `:` has one field, so
`parts[1]` panics before the test for a local volume is reached: `prepareVolumes`
does not return, and `parseService` stops without sending the deployment. -/
theorem prepareVolumes_unmapped_volume_panics :
    Split "/tmp/data" ":" = ["/tmp/data"] ∧
    prepareVolumes katenaryHelm emptyWorld "novol" novolService bareContainer St.init =
      (St.init, .error (.panicked "index out of range [1] with length 1")) ∧
    (parseService katenaryHelm emptyWorld quietSched "novol" novolService St.init).2 =
      .error (.panicked "index out of range [1] with length 1") ∧
    (parseService katenaryHelm emptyWorld quietSched "novol" novolService St.init).1.out = [] := by
  refine ⟨by decide, by decide, by decide, by decide⟩

/-! ### The Deployment pass -/

theorem containsChars_skip (sub a b : List Char) (o : Char) (ho : sub.head? = some o)
    (ha : o ∉ a) : containsChars sub (a ++ b) = containsChars sub b := by
  induction a with
  | nil => rfl
  | cons x a ih =>
    cases sub with
    | nil => simp at ho
    | cons o2 os =>
      simp only [List.head?_cons, Option.some.injEq] at ho
      subst ho
      have hx : ¬ o2 = x := fun e => ha (by simp [e])
      rw [List.cons_append, containsChars, ih (fun hm => ha (List.mem_cons_of_mem _ hm))]
      simp [List.isPrefixOf, hx]

theorem containsChars_of_isPrefixOf (sub l : List Char) (hs : sub ≠ [])
    (hp : sub.isPrefixOf l = true) : containsChars sub l = true := by
  cases l with
  | nil =>
    cases sub with
    | nil => exact absurd rfl hs
    | cons o os => simp [List.isPrefixOf] at hp
  | cons c cs => simp [containsChars, hp]

theorem dropWhile_none (p : Char → Bool) (l : List Char) (hl : ∀ x ∈ l, p x = false) :
    l.dropWhile p = l := by
  cases l with
  | nil => rfl
  | cons x l => simp [List.dropWhile, hl x (List.mem_cons_self _ _)]

theorem TrimSpace_space_cons (v : String) (hv : ∀ x ∈ v.data, isSpace x = false) :
    TrimSpace (" " ++ v) = v := by
  apply String.ext
  unfold TrimSpace
  show ((((" " ++ v).data).dropWhile isSpace).reverse.dropWhile isSpace).reverse = v.data
  have hd : (" " ++ v).data = ' ' :: v.data := by simp [String.data_append]
  have hsp : isSpace ' ' = true := by decide
  rw [hd, List.dropWhile, hsp]
  dsimp only
  rw [dropWhile_none isSpace v.data hv,
    dropWhile_none isSpace v.data.reverse (fun x hx => hv x (List.mem_reverse.mp hx)),
    List.reverse_reverse]

theorem spaces_not_mem (ind : String) (hind : ∀ x ∈ ind.data, x = ' ') (c : Char)
    (hc : c ≠ ' ') : c ∉ ind.data :=
  fun hm => hc (hind c hm)

/-- The `- name: V` line: it contains `name:` and its value is `V`. -/
theorem nameLine_reads (ind v : String) (hind : ∀ x ∈ ind.data, x = ' ')
    (hcolon : ':' ∉ v.data) (hv : ∀ x ∈ v.data, isSpace x = false) :
    Contains (ind ++ "- name: " ++ v) "name:" = true ∧
    TrimSpace ((Split (ind ++ "- name: " ++ v) ":").getD 1 "") = v := by
  constructor
  · unfold Contains
    have hd : (ind ++ "- name: " ++ v).data = (ind.data ++ "- ".data) ++ ("name: ".data ++ v.data) := by
      simp [String.data_append]
    rw [hd, containsChars_skip _ _ _ 'n' (by decide) (by
      intro hm
      rcases List.mem_append.mp hm with hm | hm
      · exact spaces_not_mem ind hind 'n' (by decide) hm
      · revert hm; decide)]
    exact containsChars_of_isPrefixOf "name:".data _ (by decide) (by
      rw [List.isPrefixOf_iff_prefix]
      exact ⟨' ' :: v.data, by simp⟩)
  · have he : ind ++ "- name: " ++ v = (ind ++ "- name") ++ ":" ++ (" " ++ v) := by
      apply String.ext
      simp [String.data_append]
    have h1 : ':' ∉ (ind ++ "- name").data := by
      rw [String.data_append]
      intro hm
      rcases List.mem_append.mp hm with hm | hm
      · exact spaces_not_mem ind hind ':' (by decide) hm
      · revert hm; decide
    have h2 : ':' ∉ (" " ++ v).data := by
      rw [String.data_append]
      intro hm
      rcases List.mem_append.mp hm with hm | hm
      · revert hm; decide
      · exact hcolon hm
    rw [he, Split_colon_two _ _ h1 h2]
    exact TrimSpace_space_cons v hv

/-- The `persistentVolumeClaim:` line. -/
theorem claimLine_reads (ind : String) (hind : ∀ x ∈ ind.data, x = ' ') :
    Contains (ind ++ "persistentVolumeClaim:") "name:" = false ∧
    Contains (ind ++ "persistentVolumeClaim:") "persistentVolumeClaim" = true := by
  unfold Contains
  rw [String.data_append]
  constructor
  · rw [containsChars_skip _ _ _ 'n' (by decide) (spaces_not_mem ind hind 'n' (by decide))]
    decide
  · rw [containsChars_skip _ _ _ 'p' (by decide) (spaces_not_mem ind hind 'p' (by decide))]
    decide

/-- The `claimName: C` line, when `C` contains neither `name:` nor
`persistentVolumeClaim`. -/
theorem claimNameLine_reads (ind c : String) (hind : ∀ x ∈ ind.data, x = ' ')
    (h1 : Contains c "name:" = false) (h2 : Contains c "persistentVolumeClaim" = false) :
    Contains (ind ++ "claimName: " ++ c) "name:" = false ∧
    Contains (ind ++ "claimName: " ++ c) "persistentVolumeClaim" = false ∧
    Contains (ind ++ "claimName: " ++ c) "claimName" = true := by
  unfold Contains at h1 h2 ⊢
  have hd : (ind ++ "claimName: " ++ c).data = (ind.data ++ "claimName: ".data) ++ c.data := by
    simp [String.data_append]
  have hd2 : (ind ++ "claimName: " ++ c).data = ind.data ++ ("claimName: ".data ++ c.data) := by
    simp [String.data_append]
  refine ⟨?_, ?_, ?_⟩
  · rw [hd, containsChars_skip _ _ _ 'n' (by decide) (by
      intro hm
      rcases List.mem_append.mp hm with hm | hm
      · exact spaces_not_mem ind hind 'n' (by decide) hm
      · revert hm; decide)]
    exact h1
  · rw [hd, containsChars_skip _ _ _ 'p' (by decide) (by
      intro hm
      rcases List.mem_append.mp hm with hm | hm
      · exact spaces_not_mem ind hind 'p' (by decide) hm
      · revert hm; decide)]
    exact h2
  · rw [hd2, containsChars_skip _ _ _ 'c' (by decide) (spaces_not_mem ind hind 'c' (by decide))]
    exact containsChars_of_isPrefixOf "claimName".data _ (by decide) (by
      rw [List.isPrefixOf_iff_prefix]
      exact ⟨':' :: ' ' :: c.data, by simp⟩)

theorem deploymentLines_append (component : String) (pre rest : List String) :
    ∀ (d0 : String), ∃ d1,
      deploymentLines component d0 (pre ++ rest) =
        deploymentLines component d0 pre ++ deploymentLines component d1 rest := by
  induction pre with
  | nil => intro d0; exact ⟨d0, rfl⟩
  | cons line pre ih =>
    intro d0
    rw [List.cons_append, deploymentLines, deploymentLines]
    split
    · obtain ⟨d1, hd1⟩ := ih (TrimSpace ((Split line ":").getD 1 ""))
      exact ⟨d1, by rw [hd1]; rfl⟩
    · split
      · obtain ⟨d1, hd1⟩ := ih d0
        exact ⟨d1, by rw [hd1]; rfl⟩
      · split
        · obtain ⟨d1, hd1⟩ := ih d0
          exact ⟨d1, by rw [hd1]; rfl⟩
        · obtain ⟨d1, hd1⟩ := ih d0
          exact ⟨d1, by rw [hd1]; rfl⟩

theorem deploymentLines_unchanged (component : String) (lines : List String) :
    ∀ (d0 : String) (i : Nat) (line : String), lines.get? i = some line →
      Contains line "persistentVolumeClaim" = false → Contains line "claimName" = false →
      (deploymentLines component d0 lines).get? i = some (line ++ "\n") := by
  induction lines with
  | nil => intro d0 i line hi; simp at hi
  | cons l rest ih =>
    intro d0 i line hi hp hc
    cases i with
    | zero =>
      simp only [List.get?_cons_zero, Option.some.injEq] at hi
      subst hi
      rw [deploymentLines]
      split
      · rfl
      · simp [hp, hc]
    | succ i =>
      simp only [List.get?_cons_succ] at hi
      rw [deploymentLines]
      split
      · simpa using ih _ i line hi hp hc
      · split
        · simpa using ih _ i line hi hp hc
        · split
          · simpa using ih _ i line hi hp hc
          · simpa using ih _ i line hi hp hc

theorem toggleLine_written (component dataname line : String) :
    "          \x7b\x7b- if  .Values." ++ component ++ ".persistence." ++ dataname ++
        ".enabled \x7d\x7d\n" ++ line ++ "\n" =
      toggleLine component dataname ++ "\n" ++ line ++ "\n" := by
  apply String.ext
  simp only [toggleLine, String.data_append, List.append_assoc]
  rfl

theorem elseLines_written (line : String) :
    line ++ "\n          \x7b\x7b else \x7d\x7d" ++ "\n          emptyDir: \x7b\x7d" ++
        "\n          \x7b\x7b- end \x7d\x7d" ++ "\n" = line ++ elseLines ++ "\n" := by
  apply String.ext
  simp only [elseLines, String.data_append, List.append_assoc]

/-- What the Deployment pass does in a list of lines in which a persistent
volume is written as the consecutive lines `- name: V`, `persistentVolumeClaim:` and
`claimName: C` (indented by spaces), where `V` has neither a colon nor white
space and `C` contains neither `name:` nor `persistentVolumeClaim`: it writes
the `- name:` line as it is, the
`persistentVolumeClaim:` line after the `if` line of the toggle
`.Values.component.persistence.V.enabled`, and the `claimName:` line followed
by the `else`, `emptyDir` and `end` lines.  Every line that contains neither
`persistentVolumeClaim` nor `claimName` is written as it is.  The component
read from the match labels `buildSelector` makes is the service name, so the
toggle is the entry `VolumeValues[name][V]` of the volume named `V`. -/
theorem deploymentLines_wraps_claim (component ind1 ind2 ind3 v c d0 : String)
    (pre post : List String)
    (hind1 : ∀ x ∈ ind1.data, x = ' ') (hind2 : ∀ x ∈ ind2.data, x = ' ')
    (hind3 : ∀ x ∈ ind3.data, x = ' ')
    (hcolon : ':' ∉ v.data) (hv : ∀ x ∈ v.data, isSpace x = false)
    (hc1 : Contains c "name:" = false) (hc2 : Contains c "persistentVolumeClaim" = false) :
    deploymentLines component d0
        (pre ++ (ind1 ++ "- name: " ++ v) :: (ind2 ++ "persistentVolumeClaim:") ::
          (ind3 ++ "claimName: " ++ c) :: post) =
      deploymentLines component d0 pre ++
        [ind1 ++ "- name: " ++ v ++ "\n",
         toggleLine component v ++ "\n" ++ (ind2 ++ "persistentVolumeClaim:") ++ "\n",
         ind3 ++ "claimName: " ++ c ++ elseLines ++ "\n"] ++
        deploymentLines component v post ∧
    (∀ (lines : List String) (d : String) (i : Nat) (line : String),
      lines.get? i = some line →
      Contains line "persistentVolumeClaim" = false → Contains line "claimName" = false →
      (deploymentLines component d lines).get? i = some (line ++ "\n")) ∧
    (∀ (h : Helm) (name content : String), h.K = "katenary.io" →
      deploymentPass h (buildSelector h name) content =
        deploymentLines name "" (Split content "\n")) := by
  refine ⟨?_, fun lines d i line => deploymentLines_unchanged component lines d i line, ?_⟩
  · obtain ⟨d1, hd1⟩ := deploymentLines_append component pre
      ((ind1 ++ "- name: " ++ v) :: (ind2 ++ "persistentVolumeClaim:") ::
        (ind3 ++ "claimName: " ++ c) :: post) d0
    obtain ⟨hn1, hn2⟩ := nameLine_reads ind1 v hind1 hcolon hv
    obtain ⟨hp1, hp2⟩ := claimLine_reads ind2 hind2
    obtain ⟨hq1, hq2, hq3⟩ := claimNameLine_reads ind3 c hind3 hc1 hc2
    rw [hd1, deploymentLines, if_pos hn1, hn2, deploymentLines, if_neg (by simp [hp1]),
      if_pos hp2, deploymentLines, if_neg (by simp [hq1]), if_neg (by simp [hq2]), if_pos hq3,
      toggleLine_written, elseLines_written]
    simp
  · intro h name content hK
    unfold deploymentPass
    rw [hK]
    rfl

/-- The volume `data` of the deployment of `database`. -/
theorem deploymentLines_wraps_claim_witness :
    deploymentLines "database" ""
        (["      volumes:"] ++ ("        " ++ "- name: " ++ "data") ::
          ("          " ++ "persistentVolumeClaim:") ::
          ("            " ++ "claimName: " ++ "\x7b\x7b .Release.Name \x7d\x7d-data") :: [""]) =
      deploymentLines "database" "" ["      volumes:"] ++
        ["        " ++ "- name: " ++ "data" ++ "\n",
         toggleLine "database" "data" ++ "\n" ++ ("          " ++ "persistentVolumeClaim:") ++ "\n",
         "            " ++ "claimName: " ++ "\x7b\x7b .Release.Name \x7d\x7d-data" ++ elseLines ++ "\n"] ++
        deploymentLines "database" "data" [""] :=
  (deploymentLines_wraps_claim "database" "        " "          " "            " "data"
    "\x7b\x7b .Release.Name \x7d\x7d-data" "" ["      volumes:"] [""]
    (by decide) (by decide) (by decide) (by decide) (by decide) (by decide) (by decide)).1

/-- C9, at the failing input: the volume named `persistentVolumeClaim` (the
mount `persistentVolumeClaim:/data`).  `prepareVolumes` makes the volume
entry with that name; on its three lines the pass puts the `if` line before
the `claimName:` line too, because that line contains
`persistentVolumeClaim`, and writes no `else`, `emptyDir` and `end` lines. -/
theorem deploymentLines_claim_named_as_marker :
    (prepareVolumes katenaryHelm emptyWorld "app"
        { Service.ofImage "nginx" with Volumes := ["persistentVolumeClaim:/data"] }
        bareContainer St.init).2 =
      .ok ([⟨"persistentVolumeClaim",
              .persistentVolumeClaim "\x7b\x7b .Release.Name \x7d\x7d-persistentVolumeClaim"⟩],
           { bareContainer with VolumeMounts := [⟨"persistentVolumeClaim", "/data"⟩] }) ∧
    deploymentLines "app" ""
        ["        - name: persistentVolumeClaim",
         "          persistentVolumeClaim:",
         "            claimName: \x7b\x7b .Release.Name \x7d\x7d-persistentVolumeClaim"] =
      ["        - name: persistentVolumeClaim\n",
       toggleLine "app" "persistentVolumeClaim" ++ "\n" ++ "          persistentVolumeClaim:" ++ "\n",
       toggleLine "app" "persistentVolumeClaim" ++ "\n" ++
         "            claimName: \x7b\x7b .Release.Name \x7d\x7d-persistentVolumeClaim" ++ "\n"] ∧
    toggleLine "app" "persistentVolumeClaim" ++ "\n" ++
         "            claimName: \x7b\x7b .Release.Name \x7d\x7d-persistentVolumeClaim" ++ "\n" ≠
      "            claimName: \x7b\x7b .Release.Name \x7d\x7d-persistentVolumeClaim" ++ elseLines ++ "\n" := by
  refine ⟨by decide, by decide, by decide⟩

/-! ### Environment files -/

theorem splitChars_zero (sep cs : List Char) : splitChars sep 0 (some 0) cs = [cs] := by
  cases cs with
  | nil => rfl
  | cons c cs =>
    rw [splitChars]
    intro h
    cases h

theorem splitChars_cons_one (sep : List Char) (c : Char) (cs : List Char) :
    splitChars sep 0 (some 1) (c :: cs) =
      if sep.isPrefixOf (c :: cs) then [] :: splitChars sep (sep.length - 1) (some 0) cs
      else
        match splitChars sep 0 (some 1) cs with
        | [] => [[c]]
        | f :: fs => (c :: f) :: fs := by
  rw [splitChars]
  · rfl
  · intro h; cases h

/-- Cutting once at a character: the text before its first occurrence and the
text after it, or the whole text when it does not occur. -/
theorem splitChars_once (sep : Char) :
    ∀ (cs : List Char),
      splitChars [sep] 0 (some 1) cs =
        if sep ∈ cs then
          [cs.takeWhile (fun c => c ≠ sep), (cs.dropWhile (fun c => c ≠ sep)).tail]
        else [cs] := by
  intro cs
  induction cs with
  | nil => rfl
  | cons c cs ih =>
    rw [splitChars_cons_one]
    by_cases hc : sep = c
    · subst hc
      rw [if_pos (by simp [List.isPrefixOf]), if_pos (List.mem_cons_self _ _)]
      simp [splitChars_zero]
    · have hc2 : c ≠ sep := fun e => hc e.symm
      rw [if_neg (by simp [List.isPrefixOf, hc]), ih]
      by_cases hm : sep ∈ cs
      · rw [if_pos hm, if_pos (List.mem_cons_of_mem _ hm)]
        simp [List.takeWhile, List.dropWhile, hc2]
      · rw [if_neg hm, if_neg (by simp [hc, hm])]

theorem SplitN_eq (l : String) :
    SplitN l "=" 2 = if '=' ∈ l.data then [beforeEq l, afterEq l] else [l] := by
  unfold SplitN
  have hs : "=".data = ['='] := rfl
  rw [hs, show (2 - 1 : Nat) = 1 from rfl, splitChars_once]
  by_cases hm : '=' ∈ l.data
  · rw [if_pos hm, if_pos hm]
    rfl
  · rw [if_neg hm, if_neg hm]
    rfl

/-- The entries of a list of lines, as `envEntries` takes them. -/
theorem addEnvLinesCM_spec (lines : List String) :
    ∀ (data : List (String × String)),
      ((addEnvLinesCM lines data).2 = false ↔
        ∀ l ∈ lines, (TrimSpace l).length ≠ 0 → '=' ∈ (TrimSpace l).data) ∧
      ((addEnvLinesCM lines data).2 = false →
        (addEnvLinesCM lines data).1 =
          (lines.filterMap (fun l =>
            if (TrimSpace l).length = 0 then none
            else some (beforeEq (TrimSpace l), afterEq (TrimSpace l)))).foldl
            (fun d kv => mapSet d kv.1 kv.2) data) := by
  induction lines with
  | nil => intro data; simp [addEnvLinesCM]
  | cons l rest ih =>
    intro data
    rw [addEnvLinesCM]
    by_cases he : (TrimSpace l).length = 0
    · rw [if_pos he]
      obtain ⟨h1, h2⟩ := ih data
      constructor
      · rw [h1]
        simp [he]
      · intro hf
        rw [h2 hf]
        simp [he]
    · rw [if_neg he, SplitN_eq]
      by_cases hm : '=' ∈ (TrimSpace l).data
      · rw [if_pos hm]
        obtain ⟨h1, h2⟩ := ih (mapSet data (beforeEq (TrimSpace l)) (afterEq (TrimSpace l)))
        constructor
        · rw [h1]
          simp [hm]
        · intro hf
          rw [h2 hf]
          simp [he]
      · rw [if_neg hm]
        constructor
        · constructor
          · intro hf
            simp at hf
          · intro hall
            exact absurd (hall l (List.mem_cons_self _ _) he) hm
        · intro hf
          simp at hf

/-- After the writes `m[k] = v` of a list of entries in order, a key reads
the value of the last entry that has it, or what it read before. -/
theorem mapGet_foldl_mapSet {β : Type} (entries : List (String × β)) :
    ∀ (init : List (String × β)) (k : String),
      mapGet (entries.foldl (fun d kv => mapSet d kv.1 kv.2) init) k =
        (mapGet entries.reverse k).or (mapGet init k) := by
  induction entries with
  | nil => intro init k; simp [mapGet]
  | cons e es ih =>
    intro init k
    rw [List.foldl_cons, ih]
    unfold mapGet at *
    rw [List.reverse_cons, List.lookup_append]
    cases hl : List.lookup k es.reverse with
    | some v => simp
    | none =>
      simp only [Option.or_none, Option.none_or]
      by_cases hk : k = e.1
      · subst hk
        have := mapGet_mapSet_same init e.1 e.2
        unfold mapGet at this
        rw [this]
        simp [List.lookup]
      · have := mapGet_mapSet_other init e.1 k e.2 hk
        unfold mapGet at this
        rw [this]
        have hb : (k == e.1) = false := by simpa using hk
        simp [List.lookup, hb]

theorem file_named (file : String) :
    file.data <:+: ("The environment file " ++ file ++ " is not valid").data :=
  ⟨"The environment file ".data, " is not valid".data, by simp [String.data_append]⟩

/-- C11: on the content `text` of an environment file, `(*ConfigMap).AddEnvFile`
returns no error exactly when every line that is not empty once trimmed
contains `=`.  Then the data of the store is the data before with, for each
such line in order, the text before the first `=` set to the whole text after
it, so that a key reads the value of the last line that has it.  Otherwise the
error is `The environment file <file> is not valid`, which names the file. -/
theorem ConfigMap_AddEnvFile_spec (c : ConfigMap) (file text : String) :
    ((c.AddEnvFile file (.ok text)).2 = none ↔
      ∀ l ∈ Split text "\n", (TrimSpace l).length ≠ 0 → '=' ∈ (TrimSpace l).data) ∧
    ((c.AddEnvFile file (.ok text)).2 = none →
      (c.AddEnvFile file (.ok text)).1.Data =
          (envEntries text).foldl (fun d kv => mapSet d kv.1 kv.2) c.Data ∧
      ∀ k, mapGet (c.AddEnvFile file (.ok text)).1.Data k =
        (mapGet (envEntries text).reverse k).or (mapGet c.Data k)) ∧
    ((c.AddEnvFile file (.ok text)).2 ≠ none →
      (c.AddEnvFile file (.ok text)).2 =
          some ("The environment file " ++ file ++ " is not valid") ∧
      file.data <:+: ("The environment file " ++ file ++ " is not valid").data) := by
  obtain ⟨h1, h2⟩ := addEnvLinesCM_spec (Split text "\n") c.Data
  unfold ConfigMap.AddEnvFile
  dsimp only
  rcases hl : addEnvLinesCM (Split text "\n") c.Data with ⟨data, _ | _⟩
  · rw [hl] at h1 h2
    dsimp only at h1 h2 ⊢
    have hd := h2 rfl
    refine ⟨⟨fun _ => h1.mp rfl, fun _ => rfl⟩, fun _ => ⟨hd, ?_⟩, fun hne => absurd rfl hne⟩
    intro k
    rw [hd]
    exact mapGet_foldl_mapSet _ _ _
  · rw [hl] at h1
    dsimp only at h1 ⊢
    refine ⟨⟨fun hn => (by cases hn), fun hall => ?_⟩, fun hn => (by cases hn),
      fun _ => ⟨rfl, file_named file⟩⟩
    have := h1.mpr hall
    cases this

/-- Witness of C11: the file `KEY=value`, and the file of the tests. -/
theorem ConfigMap_AddEnvFile_spec_witness :
    ((NewConfigMap katenaryHelm "env-useenvfile").AddEnvFile "config/env"
        (.ok "KEY=value")).1.Data = [("KEY", "value")] ∧
    ((NewConfigMap katenaryHelm "env-useenvfile").AddEnvFile "config/env"
        (.ok "FILEENV1=some_value\nFILEENV2=another_value\n")).1.Data =
      [("FILEENV1", "some_value"), ("FILEENV2", "another_value")] ∧
    ((NewConfigMap katenaryHelm "env-useenvfile").AddEnvFile "config/env"
        (.ok "KEY=value\nnot a pair")).2 =
      some ("The environment file " ++ "config/env" ++ " is not valid") := by
  have h1 := (ConfigMap_AddEnvFile_spec (NewConfigMap katenaryHelm "env-useenvfile")
    "config/env" "KEY=value").2.1 (by decide)
  have h2 := (ConfigMap_AddEnvFile_spec (NewConfigMap katenaryHelm "env-useenvfile")
    "config/env" "FILEENV1=some_value\nFILEENV2=another_value\n").2.1 (by decide)
  have h3 := (ConfigMap_AddEnvFile_spec (NewConfigMap katenaryHelm "env-useenvfile")
    "config/env" "KEY=value\nnot a pair").2.2 (by decide)
  refine ⟨?_, ?_, h3.1⟩
  · rw [h1.1]
    decide
  · rw [h2.1]
    decide

theorem addEnvLinesSecret_spec (name : String) (lines : List String) :
    ∀ (data : List (String × String)) (values : Values),
      ((addEnvLinesSecret name lines data values).2.2 = false ↔
        ∀ l ∈ lines, (TrimSpace l).length ≠ 0 → '=' ∈ (TrimSpace l).data) ∧
      ((addEnvLinesSecret name lines data values).2.2 = false →
        (addEnvLinesSecret name lines data values).1 =
          (lines.filterMap (fun l =>
            if (TrimSpace l).length = 0 then none
            else some (beforeEq (TrimSpace l), afterEq (TrimSpace l)))).foldl
            (fun d kv => mapSet d kv.1 (secretReference name kv.1)) data ∧
        (addEnvLinesSecret name lines data values).2.1 =
          (lines.filterMap (fun l =>
            if (TrimSpace l).length = 0 then none
            else some (beforeEq (TrimSpace l), afterEq (TrimSpace l)))).foldl
            (fun vals kv =>
              mapSet vals name (mapSet ((mapGet vals name).getD []) kv.1 (.str kv.2))) values) := by
  induction lines with
  | nil => intro data values; simp [addEnvLinesSecret]
  | cons l rest ih =>
    intro data values
    rw [addEnvLinesSecret]
    by_cases he : (TrimSpace l).length = 0
    · rw [if_pos he]
      obtain ⟨h1, h2⟩ := ih data values
      constructor
      · rw [h1]
        simp [he]
      · intro hf
        rw [(h2 hf).1, (h2 hf).2]
        simp [he]
    · rw [if_neg he, SplitN_eq]
      by_cases hm : '=' ∈ (TrimSpace l).data
      · rw [if_pos hm]
        obtain ⟨h1, h2⟩ := ih
          (mapSet data (beforeEq (TrimSpace l))
            ("\x7b\x7b .Values." ++ name ++ "." ++ beforeEq (TrimSpace l) ++ " | b64enc | quote \x7d\x7d"))
          (mapSet values name
            (mapSet ((mapGet values name).getD []) (beforeEq (TrimSpace l))
              (.str (afterEq (TrimSpace l)))))
        constructor
        · rw [h1]
          simp [hm]
        · intro hf
          rw [(h2 hf).1, (h2 hf).2]
          simp [he, secretReference]
      · rw [if_neg hm]
        constructor
        · constructor
          · intro hf
            simp at hf
          · intro hall
            exact absurd (hall l (List.mem_cons_self _ _) he) hm
        · intro hf
          simp at hf

theorem lookup_of_key {β : Type} (k : String) :
    ∀ (l : List (String × β)) (v : β), (k, v) ∈ l → ∃ v2, mapGet l k = some v2 ∧ (k, v2) ∈ l := by
  intro l
  induction l with
  | nil => intro v hm; simp at hm
  | cons e es ih =>
    intro v hm
    obtain ⟨k0, v0⟩ := e
    by_cases hk : k = k0
    · subst hk
      exact ⟨v0, by simp [mapGet], List.mem_cons_self _ _⟩
    · have hm2 : (k, v) ∈ es := by
        rcases List.mem_cons.mp hm with hx | hx
        · simp only [Prod.mk.injEq] at hx
          exact absurd hx.1 hk
        · exact hx
      obtain ⟨v2, h1, h2⟩ := ih v hm2
      have hb : (k == k0) = false := by simpa using hk
      refine ⟨v2, ?_, List.mem_cons_of_mem _ h2⟩
      unfold mapGet at h1 ⊢
      simp [List.lookup, hb, h1]

theorem mapGet_map_snd {β γ : Type} (f : String → β → γ) (k : String) :
    ∀ (l : List (String × β)),
      mapGet (l.map (fun kv => (kv.1, f kv.1 kv.2))) k = (mapGet l k).map (f k) := by
  intro l
  induction l with
  | nil => rfl
  | cons e es ih =>
    obtain ⟨k0, v0⟩ := e
    unfold mapGet at ih ⊢
    by_cases hk : k = k0
    · subst hk
      simp
    · have hb : (k == k0) = false := by simpa using hk
      simp only [List.map_cons, List.lookup, hb]
      exact ih

theorem foldl_values_entry (name : String) (entries : List (String × String)) :
    ∀ (values : Values),
      (mapGet
        (entries.foldl
          (fun vals kv =>
            mapSet vals name (mapSet ((mapGet vals name).getD []) kv.1 (.str kv.2))) values)
        name).getD [] =
      (entries.map (fun kv => (kv.1, Val.str kv.2))).foldl (fun d kv => mapSet d kv.1 kv.2)
        ((mapGet values name).getD []) := by
  induction entries with
  | nil => intro values; rfl
  | cons e es ih =>
    intro values
    rw [List.foldl_cons, ih, mapGet_mapSet_same]
    rfl

/-- C12: on the content `text` of an environment file in which every line
that is not empty once trimmed contains `=`, `(*Secret).AddEnvFile` for the
service `name` returns no error, and for every key `k` of the file the data of
the secret holds the templated reference `{{ .Values.name.k | b64enc | quote }}`,
whatever the value, while `Values[name][k]` holds the literal value of the last
line that has the key. -/
theorem Secret_AddEnvFile_spec (s : ConfigMap) (file name text : String) (values : Values)
    (hwf : ∀ l ∈ Split text "\n", (TrimSpace l).length ≠ 0 → '=' ∈ (TrimSpace l).data) :
    (Secret.AddEnvFile s file name (.ok text) values).2.2 = none ∧
    ∀ k v, (k, v) ∈ envEntries text →
      mapGet (Secret.AddEnvFile s file name (.ok text) values).1.Data k =
        some (secretReference name k) ∧
      ∃ v2, mapGet (envEntries text).reverse k = some v2 ∧ (k, v2) ∈ envEntries text ∧
        mapGet ((mapGet (Secret.AddEnvFile s file name (.ok text) values).2.1 name).getD []) k =
          some (.str v2) := by
  obtain ⟨h1, h2⟩ := addEnvLinesSecret_spec name (Split text "\n") s.Data values
  have hf := h1.mpr hwf
  obtain ⟨hd, hv⟩ := h2 hf
  unfold Secret.AddEnvFile
  dsimp only
  rcases hl : addEnvLinesSecret name (Split text "\n") s.Data values with ⟨data, vals, _ | _⟩
  · rw [hl] at hd hv
    dsimp only at hd hv ⊢
    refine ⟨rfl, ?_⟩
    intro k v hkv
    obtain ⟨v2, hv2, hmem⟩ :=
      lookup_of_key k (envEntries text).reverse v (List.mem_reverse.mpr hkv)
    constructor
    · have hfold : data =
          ((envEntries text).map (fun kv => (kv.1, secretReference name kv.1))).foldl
            (fun d kv => mapSet d kv.1 kv.2) s.Data := by
        rw [hd, List.foldl_map]
        rfl
      have hm := mapGet_map_snd (fun (k : String) (_ : String) => secretReference name k) k
        (envEntries text).reverse
      rw [hfold, mapGet_foldl_mapSet, ← List.map_reverse, hm, hv2]
      rfl
    · refine ⟨v2, hv2, List.mem_reverse.mp hmem, ?_⟩
      have hfold := foldl_values_entry name (envEntries text) values
      have hvals : vals = (envEntries text).foldl
          (fun vals kv =>
            mapSet vals name (mapSet ((mapGet vals name).getD []) kv.1 (.str kv.2))) values := hv
      rw [hvals, hfold]
      have hm := mapGet_map_snd (fun (_ : String) (v : String) => Val.str v) k
        (envEntries text).reverse
      rw [mapGet_foldl_mapSet, ← List.map_reverse, hm, hv2]
      rfl
  · rw [hl] at hf
    cases hf

/-- Witness of C12: the secret file `PASSWORD=hunter2` of the service `db`. -/
theorem Secret_AddEnvFile_spec_witness :
    mapGet (Secret.AddEnvFile (NewSecret katenaryHelm "secret-db") "secret.env" "db"
        (.ok "PASSWORD=hunter2\n") []).1.Data "PASSWORD" =
      some (secretReference "db" "PASSWORD") :=
  ((Secret_AddEnvFile_spec (NewSecret katenaryHelm "secret-db") "secret.env" "db"
      "PASSWORD=hunter2\n" [] (by decide)).2 "PASSWORD" "hunter2" (by decide)).1

/-! ### The image, the ports and the order of what is sent -/

/-- C13, at the failing input: the service `web` with image `nginx` and the
environment file `secret.env`, routed to a secret, whose one line is
`image=other`.  The run gets to its end and the container of the deployment
has the image `{{ .Values.web.image }}`, but `Values["web"]["image"]` is
`other`: `(*Secret).AddEnvFile` wrote the key `image` of the file over it. -/
theorem parseService_image_overwritten :
    (parseService katenaryHelm secretWorld quietSched "web" imageSecretService St.init).2 =
      .ok () ∧
    imageSecretService.Image = "nginx" ∧
    (mapGet (parseService katenaryHelm secretWorld quietSched "web" imageSecretService
        St.init).1.Values "web").bind (fun m => mapGet m "image") = some (.str "other") ∧
    (parseService katenaryHelm secretWorld quietSched "web" imageSecretService St.init).1.out.map
        (fun r =>
          match r with
          | some (.deployment d) => d.Containers.map (fun c => c.Image)
          | _ => []) =
      [[], ["\x7b\x7b .Values.web.image \x7d\x7d"], []] := by
  refine ⟨by decide, by decide, by decide, by decide⟩

/-- C14, at the failing input: the service `web` with the declared port
`80:80` and the exposed port 443.  Both container ports are named `web`. -/
theorem generateContainerPorts_same_name :
    (generateContainerPorts exposeService "web" bareContainer).Ports =
      [⟨"web", 80⟩, ⟨"web", 443⟩] ∧
    (generateContainerPorts
        { Service.ofImage "nginx" with Ports := ["8080:80", "8081:81", "8082:81"] } "web"
        bareContainer).Ports =
      [⟨"web", 80⟩, ⟨"web-81", 81⟩, ⟨"web-81", 81⟩] := by
  refine ⟨by decide, by decide⟩

/-- C16, at the failing input: the service `http2` of the tests, with its two
environment variables, generated under two schedules that differ only in the
order in which `range` visits the environment map.  Both runs get to their
end, and the deployments they send differ in the order of the environment of
the container. -/
theorem parseService_env_order_differs :
    (parseService katenaryHelm emptyWorld quietSched "http2" envService St.init).2 = .ok () ∧
    (parseService katenaryHelm emptyWorld reversedSched "http2" envService St.init).2 = .ok () ∧
    (reversedSched.rangeOrder envService.Environment).Perm
      (quietSched.rangeOrder envService.Environment) ∧
    (parseService katenaryHelm emptyWorld quietSched "http2" envService St.init).1.out ≠
      (parseService katenaryHelm emptyWorld reversedSched "http2" envService St.init).1.out := by
  refine ⟨by decide, by decide, List.reverse_perm _, by decide⟩

/-- C17, at the failing input: the mount `./conf:/etc/conf`, listed in the
volume-to-configmap label, in a world where `os.Stat("./conf")` fails.
`buildCMFromPath` returns nil and `prepareVolumes` panics on
`cm.K8sBase.Metadata.Name`: nothing is sent, no volume is returned, and the
volume `data` that follows is never reached. -/
theorem prepareVolumes_missing_path_panics :
    emptyWorld.Stat "./conf" = none ∧
    buildCMFromPath katenaryHelm emptyWorld "./conf" = none ∧
    prepareVolumes katenaryHelm emptyWorld "web" cmService bareContainer St.init =
      (St.init, .error (.panicked "invalid memory address or nil pointer dereference")) := by
  refine ⟨by decide, by decide, by decide⟩

/-- C19, at the failing executions: after the delivery by the goroutine of
`detected`, after the delivery by the goroutine of `waitPort`, and after a tick
of the broadcast loop, the channel that was sent a value is still the one
element of `serviceWaiters["database"]`. -/
theorem delivered_waiter_stays_listed :
    (exec Registry.init [.waitPort "database", .detected "database" 3306, .run 1]).chans =
      [⟨[3306], false⟩] ∧
    mapGet (exec Registry.init
        [.waitPort "database", .detected "database" 3306, .run 1]).serviceWaiters "database" =
      some [0] ∧
    (exec Registry.init [.detected "database" 3306, .waitPort "database", .run 1]).chans =
      [⟨[3306], false⟩] ∧
    mapGet (exec Registry.init
        [.detected "database" 3306, .waitPort "database", .run 1]).serviceWaiters "database" =
      some [0] ∧
    (exec Registry.init [.startBroadcast "database", .waitPort "database", .run 0]).chans =
      [⟨[-1], true⟩] ∧
    mapGet (exec Registry.init
        [.startBroadcast "database", .waitPort "database", .run 0]).serviceWaiters "database" =
      some [0] := by
  refine ⟨by decide, by decide, by decide, by decide, by decide, by decide⟩

theorem externalService_network (h : Helm) (name : String) (s : Service) :
    ∀ r ∈ (externalService h name s).map some, isNetwork r = true := by
  rw [externalService_eq]
  by_cases hx : s.Expose = [] <;> simp [hx, isNetwork]

theorem generateServicesAndIngresses_network (h : Helm) (name : String) (s : Service)
    (st : St) (res : List Resource)
    (hok : (generateServicesAndIngresses h name s st).2 = .ok res) :
    ∀ r ∈ res.map some, isNetwork r = true := by
  intro r hr
  rcases generateServicesAndIngresses_ok h name s st res hok with ⟨_, hres⟩ | ⟨v, _, _, hres⟩
  · rw [hres, List.map_append] at hr
    rcases List.mem_append.mp hr with hr | hr
    · simp at hr
      subst hr
      rfl
    · exact externalService_network h name s r hr
  · rw [hres, List.map_append] at hr
    rcases List.mem_append.mp hr with hr | hr
    · simp at hr
      rcases hr with hr | hr <;> subst hr <;> rfl
    · exact externalService_network h name s r hr

theorem filter_none_of_all {α : Type} (p q : α → Bool) (l : List α)
    (hl : ∀ r ∈ l, p r = true) (hpq : ∀ r, p r = true → q r = false) : l.filter q = [] := by
  rw [List.filter_eq_nil_iff]
  intro a ha
  simp [hpq a (hl a ha)]

/-- C15, as amended: in a run of `parseService` that does not abort (neither
a fatal exit nor a panic) and is not left blocked for ever in the receive of a
dependency port, what was sent on `ret` is, in this order, the stores and
claims (config maps, secrets, storage claims), the network services and the
ingress, one deployment and the end marker.  So there is one deployment and
one end marker, the deployment comes right before the end marker, every store
and claim comes before the deployment, and the end marker is the last value
sent. -/
theorem parseService_ends_with_workload (h : Helm) (w : World) (sch : Sched) (name : String)
    (s : Service) (st : St)
    (hexit : ∀ code msg, (parseService h w sch name s st).2 ≠ .error (.exit code msg))
    (hpanic : ∀ msg, (parseService h w sch name s st).2 ≠ .error (.panicked msg))
    (hblocked : (parseService h w sch name s st).2 ≠ .error .blocked) :
    ∃ (stores netw : List (Option Resource)) (dep : Deployment),
      (parseService h w sch name s st).1.out =
        st.out ++ (stores ++ netw ++ [some (Resource.deployment dep), none]) ∧
      (∀ r ∈ stores, isStore r = true) ∧ (∀ r ∈ netw, isNetwork r = true) ∧
      ((stores ++ netw ++ [some (Resource.deployment dep), none]).filter isWorkload).length = 1 ∧
      ((stores ++ netw ++ [some (Resource.deployment dep), none]).filter Option.isNone).length = 1 ∧
      (stores ++ netw ++ [some (Resource.deployment dep), none]).getLast? = some none ∧
      (stores ++ netw ++ [some (Resource.deployment dep), none]).filter isStore = stores := by
  obtain ⟨stores, services, hall, hnone, hcase⟩ := parseService_out h w sch name s st
  rcases hcase with ⟨_, c, vols, ics, hout, hgen⟩ | ⟨⟨e, herr⟩, _⟩
  · have hnet : ∀ r ∈ services.map some, isNetwork r = true := by
      by_cases hp : s.Ports = [] ∧ s.Expose = []
      · rw [hnone hp]
        simp
      · obtain ⟨st0, hg⟩ := hgen hp
        exact generateServicesAndIngresses_network h name s st0 services hg
    have hs1 := filter_none_of_all isStore isWorkload stores hall (by
      intro r hr
      rcases r with _ | (_ | _ | _ | _ | _ | _) <;> simp [isStore, isWorkload] at hr ⊢)
    have hs2 := filter_none_of_all isStore Option.isNone stores hall (by
      intro r hr
      rcases r with _ | (_ | _ | _ | _ | _ | _) <;> simp [isStore] at hr ⊢)
    have hn1 := filter_none_of_all isNetwork isWorkload (services.map some) hnet (by
      intro r hr
      rcases r with _ | (_ | _ | _ | _ | _ | _) <;> simp [isNetwork, isWorkload] at hr ⊢)
    have hn2 := filter_none_of_all isNetwork Option.isNone (services.map some) hnet (by
      intro r hr
      rcases r with _ | (_ | _ | _ | _ | _ | _) <;> simp [isNetwork] at hr ⊢)
    have hn3 := filter_none_of_all isNetwork isStore (services.map some) hnet (by
      intro r hr
      rcases r with _ | (_ | _ | _ | _ | _ | _) <;> simp [isNetwork, isStore] at hr ⊢)
    have hs3 : stores.filter isStore = stores := by
      rw [List.filter_eq_self]
      exact hall
    refine ⟨stores, services.map some,
      ⟨name, [c], vols, buildSelector h name, buildSelector h name, ics⟩, ?_, hall, hnet,
      ?_, ?_, ?_, ?_⟩
    · rw [hout]
      simp
    · simp [List.filter_append, hs1, hn1, isWorkload]
    · simp [List.filter_append, hs2, hn2]
    · simp
    · simp [List.filter_append, hs3, hn3, isStore]
  · cases e with
    | exit code msg => exact absurd herr (hexit code msg)
    | panicked msg => exact absurd herr (hpanic msg)
    | blocked => exact absurd herr hblocked

/-- Witness of C15 as amended: the run for the service `database` gets to its
end, and sends a storage claim, two network services, the deployment and the
end marker. -/
theorem parseService_ends_with_workload_witness :
    (parseService katenaryHelm emptyWorld quietSched "database" databaseService St.init).2 =
      .ok () ∧
    ∃ (stores netw : List (Option Resource)) (dep : Deployment),
      (parseService katenaryHelm emptyWorld quietSched "database" databaseService St.init).1.out =
        St.init.out ++ (stores ++ netw ++ [some (Resource.deployment dep), none]) ∧
      (∀ r ∈ stores, isStore r = true) ∧ (∀ r ∈ netw, isNetwork r = true) ∧
      stores.length = 1 ∧ netw.length = 2 := by
  have hok : (parseService katenaryHelm emptyWorld quietSched "database" databaseService
      St.init).2 = .ok () := by decide
  obtain ⟨stores, netw, dep, h1, h2, h3, _, _, _, h7⟩ :=
    parseService_ends_with_workload katenaryHelm emptyWorld quietSched "database"
      databaseService St.init
      (fun code msg he => by rw [hok] at he; cases he)
      (fun msg he => by rw [hok] at he; cases he)
      (fun he => by rw [hok] at he; cases he)
  have hout : (parseService katenaryHelm emptyWorld quietSched "database" databaseService
      St.init).1.out.filter isStore =
      [some (.storage ⟨"database", "data"⟩)] := by decide
  refine ⟨hok, stores, netw, dep, h1, h2, h3, ?_, ?_⟩
  · have hf := h7
    rw [← List.nil_append (stores ++ netw ++ [some (Resource.deployment dep), none])] at hf
    change (St.init.out ++ (stores ++ netw ++ [some (Resource.deployment dep), none])).filter
      isStore = stores at hf
    rw [← h1, hout] at hf
    rw [← hf]
    rfl
  · have hlen := congrArg List.length h1
    have hl : (parseService katenaryHelm emptyWorld quietSched "database" databaseService
        St.init).1.out.length = 5 := by decide
    have hf := h7
    rw [← List.nil_append (stores ++ netw ++ [some (Resource.deployment dep), none])] at hf
    change (St.init.out ++ (stores ++ netw ++ [some (Resource.deployment dep), none])).filter
      isStore = stores at hf
    rw [← h1, hout] at hf
    rw [hl, ← hf] at hlen
    simp [St.init] at hlen
    omega

/-- Counterexample to C15 as stated: the service `php` that depends on
`database`, in a schedule where nothing is ever sent on the channel that
`waitPort` made.  The run does not abort: it stays in the receive
`<-waitPort("database")` of `prepareInitContainers`, and it has sent neither a
deployment nor the end marker. -/
theorem parseService_blocked_counterexample :
    (parseService katenaryHelm emptyWorld quietSched "php" (dependent ["database"]) St.init).2 =
      .error .blocked ∧
    (∀ code msg,
      (parseService katenaryHelm emptyWorld quietSched "php" (dependent ["database"]) St.init).2 ≠
        .error (.exit code msg)) ∧
    (∀ msg,
      (parseService katenaryHelm emptyWorld quietSched "php" (dependent ["database"]) St.init).2 ≠
        .error (.panicked msg)) ∧
    (parseService katenaryHelm emptyWorld quietSched "php" (dependent ["database"]) St.init).1.out =
      [] ∧
    (parseService katenaryHelm emptyWorld quietSched "php" (dependent ["database"])
      St.init).1.out.filter isWorkload = [] ∧
    (parseService katenaryHelm emptyWorld quietSched "php" (dependent ["database"])
      St.init).1.out.getLast? ≠ some none := by
  have hrun : (parseService katenaryHelm emptyWorld quietSched "php" (dependent ["database"])
      St.init).2 = .error .blocked := by decide
  refine ⟨hrun, ?_, ?_, by decide, by decide, by decide⟩
  · intro code msg he
    rw [hrun] at he
    cases he
  · intro msg he
    rw [hrun] at he
    cases he

/-! ### Health checks -/

/-- C18, at the failing inputs: a health check with valid durations and no
label.  With the test `CMD-SHELL curl -f http://localhost`, whose first token
is not `CMD`, `prepareProbes` does not abort: it returns the container with a
liveness probe that has no handler at all.  With an empty test it panics on
`Test[0]`, which is no report of an input error either. -/
theorem prepareProbes_marker_unchecked :
    (hcService ["CMD-SHELL", "curl -f http://localhost"]).HealthCheck =
        some ⟨["CMD-SHELL", "curl -f http://localhost"], "", "", 3⟩ ∧
      hcWorld.DurationSeconds "10s" = .ok 10 ∧ hcWorld.DurationSeconds "0s" = .ok 0 ∧
      mapGet (hcService ["CMD-SHELL", "curl -f http://localhost"]).Labels
        katenaryHelm.LABEL_HEALTHCHECK = none ∧
      "CMD-SHELL" ≠ "CMD" ∧
      prepareProbes katenaryHelm hcWorld (hcService ["CMD-SHELL", "curl -f http://localhost"])
          bareContainer =
        .ok { bareContainer with LivenessProbe := some ⟨10, 0, 1, 3, none, none, none⟩ } ∧
      prepareProbes katenaryHelm hcWorld (hcService []) bareContainer =
        .error (.panicked "index out of range [0] with length 0") := by
  refine ⟨by decide, by decide, by decide, by decide, by decide, by decide, by decide⟩

/-- What `prepareProbes` does with the first token of the test, for a service
with a health check whose durations parse, without a health-check label and
with a test that has a first token: it returns the container with a liveness
probe of the parsed period and delay, success threshold 1 and the retries of
the health check.  When the first token is `CMD` the probe is an exec probe
whose command is the tokens after the first, as the specification asks; when
it is anything else no branch of the code is taken and the probe is left
without a handler. -/
theorem prepareProbes_test_marker (h : Helm) (w : World) (s : Service) (container : Container)
    (hc : HealthCheck) (interval delay : Int) (t : String) (ts : List String)
    (hhc : s.HealthCheck = some hc)
    (hint : w.DurationSeconds (if hc.Interval = "" then "10s" else hc.Interval) = .ok interval)
    (hdel : w.DurationSeconds (if hc.StartPeriod = "" then "0s" else hc.StartPeriod) = .ok delay)
    (hlab : (mapGet s.Labels h.LABEL_HEALTHCHECK).getD "" = "")
    (htest : hc.Test = t :: ts) :
    (t = "CMD" → prepareProbes h w s container =
      .ok { container with
            LivenessProbe := some ⟨interval, delay, 1, hc.Retries, none, none, some ts⟩ }) ∧
    (t ≠ "CMD" → prepareProbes h w s container =
      .ok { container with
            LivenessProbe := some ⟨interval, delay, 1, hc.Retries, none, none, none⟩ }) := by
  constructor
  · intro ht
    simp only [prepareProbes, hhc, hint, hdel, hlab, htest, ht]
    simp
  · intro ht
    simp only [prepareProbes, hhc, hint, hdel, hlab, htest]
    simp [ht]

/-- The test `CMD curl -f http://localhost` gives the exec probe
`curl -f http://localhost`. -/
theorem prepareProbes_test_marker_witness :
    prepareProbes katenaryHelm hcWorld (hcService ["CMD", "curl", "-f", "http://localhost"])
        bareContainer =
      .ok { bareContainer with
            LivenessProbe := some ⟨10, 0, 1, 3, none, none, some ["curl", "-f", "http://localhost"]⟩ } :=
  (prepareProbes_test_marker katenaryHelm hcWorld
    (hcService ["CMD", "curl", "-f", "http://localhost"]) bareContainer
    ⟨["CMD", "curl", "-f", "http://localhost"], "", "", 3⟩ 10 0 "CMD"
    ["curl", "-f", "http://localhost"] rfl (by decide) (by decide) (by decide) rfl).1 rfl

/-! ### The waiters of a name are never taken off the list -/

theorem send_serviceWaiters (st : Registry) (c : Nat) (v : Int) :
    (send st c v).serviceWaiters = st.serviceWaiters := by
  unfold send
  split <;> rfl

theorem closeChan_serviceWaiters (st : Registry) (c : Nat) :
    (closeChan st c).serviceWaiters = st.serviceWaiters := by
  unfold closeChan
  split <;> rfl

theorem sendAll_serviceWaiters (port : Int) (cs : List Nat) :
    ∀ st : Registry, (sendAll port st cs).serviceWaiters = st.serviceWaiters := by
  induction cs with
  | nil => intro st; rfl
  | cons c cs ih =>
    intro st
    rw [sendAll]
    split
    · rw [ih, send_serviceWaiters]
    · rw [send_serviceWaiters]

theorem broadcastAll_serviceWaiters (cs : List Nat) :
    ∀ st : Registry, (broadcastAll st cs).serviceWaiters = st.serviceWaiters := by
  induction cs with
  | nil => intro st; rfl
  | cons c cs ih =>
    intro st
    rw [broadcastAll]
    split
    · split
      · rw [ih, closeChan_serviceWaiters, send_serviceWaiters]
      · rw [closeChan_serviceWaiters, send_serviceWaiters]
    · rw [send_serviceWaiters]

theorem runBody_serviceWaiters (st : Registry) (g : Goroutine) :
    (runBody st g).serviceWaiters = st.serviceWaiters := by
  cases g with
  | detectedDelivery name port =>
    simp only [runBody]
    split
    · rw [sendAll_serviceWaiters]
    · rfl
  | waitPortDelivery name c =>
    simp only [runBody]
    split
    · rw [send_serviceWaiters]
    · rfl
  | noPortBroadcast name =>
    simp only [runBody]
    rw [broadcastAll_serviceWaiters]

theorem detected_serviceWaiters (st : Registry) (name : String) (port : Int) :
    (detected st name port).serviceWaiters = st.serviceWaiters := by
  unfold detected
  split <;> rfl

/-- No step of the registry takes a channel off the list of waiters of a name:
the code only ever appends to `serviceWaiters[name]`. -/
theorem step_keeps_waiters (st : Registry) (a : Action) (name : String) (c : Nat)
    (hc : c ∈ (mapGet st.serviceWaiters name).getD []) :
    c ∈ (mapGet (step st a).serviceWaiters name).getD [] := by
  unfold step
  split
  · exact hc
  · cases a with
    | waitPort n =>
      simp only [waitPort]
      by_cases hn : name = n
      · subst hn
        rw [mapGet_mapSet_same]
        simp only [Option.getD_some]
        exact List.mem_append_left _ hc
      · rw [mapGet_mapSet_other _ _ _ _ hn]
        exact hc
    | detected n port =>
      simp only []
      rw [detected_serviceWaiters]
      exact hc
    | startBroadcast n => exact hc
    | run i =>
      simp only []
      split
      · exact hc
      · rw [runBody_serviceWaiters]
        exact hc
      · rw [runBody_serviceWaiters]
        exact hc

theorem exec_keeps_waiters (as : List Action) :
    ∀ (st : Registry) (name : String) (c : Nat),
      c ∈ (mapGet st.serviceWaiters name).getD [] →
      c ∈ (mapGet (exec st as).serviceWaiters name).getD [] := by
  induction as with
  | nil => intro st name c hc; exact hc
  | cons a as ih =>
    intro st name c hc
    exact ih (step st a) name c (step_keeps_waiters st a name c hc)

end Katenary
